import Mathlib

/-!
Verification of the job orchestration pipeline of the video_voice_remover
server (`server/jobQueue.ts`): in-memory job store, single-worker FIFO
scheduler, stage runner, the progress/step protocol, the two-stage pipeline
with progress remapping, and the cleanup/failure semantics.

The embedding is shallow: each TypeScript function is translated to a Lean
function over explicit state.  JavaScript `Date.now()` is modelled by a
clock function `Nat → Nat` sampled at an explicit call counter (`tick`);
the local file system is a list of existing paths; the external Python
stage processes are described by a `StageBehavior` (whether the spawn
fails, the decoded stdout events, the exit code, whether the declared
output file exists afterwards); the storage capability is an
`Except String String` (error message or URL).  Observable instants are
the synchronous blocks between `await`/callback boundaries of the
single-threaded event loop; `processJob` records a snapshot of the job
after each such block in a `trace`.
-/

namespace VVR

/-- Job status, `type JobStatus = "queued" | "processing" | "completed" | "error"`. -/
inductive JobStatus where
  | queued
  | processing
  | completed
  | error
deriving DecidableEq, Repr

/-- One audit-trail record, interface `ProcessingStep` of jobQueue.ts. -/
structure ProcessingStep where
  step : String
  percent : Int
  message : String
  timestamp : Nat
deriving DecidableEq, Repr

/-- The job record, interface `Job` of jobQueue.ts.  Optional TS fields are
`Option`s; JS numbers holding integer percents are `Int`; timestamps are `Nat`. -/
structure Job where
  id : String
  originalName : String
  inputPath : String
  outputPath : Option String := none
  downloadUrl : Option String := none
  status : JobStatus
  progress : Int
  currentStep : String
  steps : List ProcessingStep
  error : Option String := none
  createdAt : Nat
  completedAt : Option Nat := none
  expiresAt : Option Nat := none
  visualPerturb : Bool
deriving DecidableEq, Repr

/-- A decoded stdout line of a stage process: an object with optional fields
`step`, `percent`, `message`, `error` (`JSON.parse` of one line). -/
structure ParsedEvent where
  step : Option String := none
  percent : Option Int := none
  message : Option String := none
  error : Option String := none
deriving DecidableEq, Repr

/-- JavaScript truthiness of an optional string field: `undefined` and the
empty string are falsy (`if (parsed.error)`, `else if (parsed.step)`). -/
def strTruthy : Option String → Bool
  | some s => !(s == "")
  | none => false

/-- The `addStep` closure of `processJob` (jobQueue.ts lines 132-147): an
`error` event latches status `error` and stores the message; a `step` event
updates `progress`/`currentStep` only when `percent`/`message` are present
(`??` keeps the previous value) and appends an audit record with defaults
`percent = 0`, `message = ""`; other events are ignored.  `now` is the
`Date.now()` sample used for the record's timestamp. -/
def addStep (now : Nat) (parsed : ParsedEvent) (job : Job) : Job :=
  if strTruthy parsed.error then
    { job with
      status := JobStatus.error
      error := some (parsed.error.getD "")
      currentStep := "Erro no processamento" }
  else if strTruthy parsed.step then
    { job with
      progress := parsed.percent.getD job.progress
      currentStep := parsed.message.getD job.currentStep
      steps := job.steps ++
        [{ step := parsed.step.getD ""
           percent := parsed.percent.getD 0
           message := parsed.message.getD ""
           timestamp := now }] }
  else
    job

/-- The remapping wrapper around `addStep` used for events of the optional
visual stage (jobQueue.ts lines 171-179):
`remapped = 50 + Math.round((parsed.percent ?? 0) * 0.45)`.
`Math.round` rounds half toward positive infinity; for integer percents in
`[0, 100]` the IEEE-754 evaluation of `p * 0.45` never crosses a rounding
boundary, so the result is exactly `(45 * p + 50) / 100` rounded down, which
is what integer division gives on the nonnegative domain. -/
def remapFormula (p : Int) : Int :=
  50 + (45 * p + 50) / 100

/-- The wrapper itself (jobQueue.ts lines 171-179): a step event's percent is
replaced by the remapped value (`addStep({ ...parsed, percent: remapped })`,
all other fields preserved); any other event is forwarded unchanged. -/
def remapVisual (parsed : ParsedEvent) : ParsedEvent :=
  if strTruthy parsed.step then
    { parsed with percent := some (remapFormula (parsed.percent.getD 0)) }
  else
    parsed

/-- Behaviour of one external stage process, as observed by the stage runner
and the file system: whether `spawn` itself fails (`python.on("error")`),
the successfully decoded stdout events in arrival order, the exit code
passed to `python.on("close")`, and whether the process left its declared
output file on disk.  A failed spawn produces no stdout and no output file. -/
structure StageBehavior where
  spawnFails : Bool := false
  events : List ParsedEvent := []
  exitCode : Int := 0
  createsOutput : Bool := false
deriving DecidableEq, Repr

/-- The stage runner `runPythonScript` (jobQueue.ts lines 98-118), abstracted
over the process behaviour: it resolves with the exit code and has delivered
the decoded events to the callback in order; a spawn failure resolves with
the sentinel code `1` (`python.on("error", () => resolve(1))`) after
delivering no events. -/
def runPythonScript (b : StageBehavior) : Int × List ParsedEvent :=
  if b.spawnFails then (1, []) else (b.exitCode, b.events)

/-- The four-character case-insensitive match of the regex `/\.mp4$/i`. -/
def isMp4Suffix : List Char → Bool
  | [c1, c2, c3, c4] =>
    c1 == '.' && (c2 == 'm' || c2 == 'M') && (c3 == 'p' || c3 == 'P') && c4 == '4'
  | _ => false

/-- The call `inputPath.replace(/\.mp4$/i, repl)`: replace a trailing `.mp4`
(case-insensitive) with `repl`; a path without the suffix is unchanged.
Computed over the character list of the string. -/
def replaceMp4Suffix (s repl : String) : String :=
  if isMp4Suffix (s.data.drop (s.data.length - 4)) then
    String.mk (s.data.take (s.data.length - 4) ++ repl.data)
  else s

/-- Source line `const outputPath = job.inputPath.replace(/\.mp4$/i, "_processed.mp4")`. -/
def audioOutputPath (inputPath : String) : String :=
  replaceMp4Suffix inputPath "_processed.mp4"

/-- Source line `const visualOutputPath = job.inputPath.replace(/\.mp4$/i, "_final.mp4")`. -/
def visualOutputPathOf (inputPath : String) : String :=
  replaceMp4Suffix inputPath "_final.mp4"

/-- The local file system, as the set of existing paths (`fs.existsSync`). -/
def pathExists (fileSys : List String) (p : String) : Bool :=
  fileSys.contains p

/-- File creation (a stage writing its declared output). -/
def addPath (fileSys : List String) (p : String) : List String :=
  if fileSys.contains p then fileSys else fileSys ++ [p]

/-- Best-effort `if (fs.existsSync(p)) fs.unlinkSync(p)` (errors swallowed):
after it, the path no longer exists. -/
def removePath (fileSys : List String) (p : String) : List String :=
  fileSys.filter (fun q => !(q == p))

/-- State threaded through one `processJob` run: the job record, the file
system, the `Date.now()` call counter, the trace of job snapshots at each
observable instant (between awaits/callbacks of the event loop), and whether
the optional visual stage resp. the storage put were invoked. -/
structure PipeState where
  job : Job
  fileSys : List String
  tick : Nat
  trace : List Job
  visualCalled : Bool
  putCalled : Bool
deriving DecidableEq, Repr

/-- Record an observable snapshot of the job. -/
def snap (s : PipeState) : PipeState :=
  { s with trace := s.trace ++ [s.job] }

/-- Deliver one decoded event to `addStep`.  A step event consumes one
`Date.now()` sample for the audit record's timestamp; every delivered event
ends a callback, hence is an observable instant. -/
def applyEvent (clock : Nat → Nat) (s : PipeState) (parsed : ParsedEvent) : PipeState :=
  let usesClock := !strTruthy parsed.error && strTruthy parsed.step
  snap { s with
    job := addStep (clock s.tick) parsed s.job
    tick := if usesClock then s.tick + 1 else s.tick }

/-- The stage-failure block of `processJob` (jobQueue.ts lines 153-161 and
185-193, identical up to the messages): set a generic error with the stage's
exit code unless an error is already set (first protocol error wins over the
generic message), then best-effort delete the input file and return. -/
def failStage (genericError currentStepMsg : String) (s : PipeState) : PipeState :=
  let s2 :=
    if s.job.status ≠ JobStatus.error then
      snap { s with
        job := { s.job with
          status := JobStatus.error
          error := some genericError
          currentStep := currentStepMsg } }
    else
      snap s
  { s2 with fileSys := removePath s2.fileSys s2.job.inputPath }

/-- The final `doUpload` closure of `processJob` (jobQueue.ts lines 198-241):
if the final artifact exists, set `progress = 95`, read it and hand it to
storage; on success set `downloadUrl`/`completed`/`progress = 100` and the
two `Date.now()`-derived fields `completedAt` and `expiresAt` (two separate
clock samples), then delete the local artifact; on storage failure set a
storage error.  If the artifact is missing, set a generic error unless one
is already set.  In all cases, finally delete the input file best-effort. -/
def doUpload (clock : Nat → Nat) (storage : Except String String)
    (finalOutputPath : String) (s : PipeState) : PipeState :=
  let s1 :=
    if pathExists s.fileSys finalOutputPath then
      let sa := snap { s with
        job := { s.job with currentStep := "Enviando para armazenamento...", progress := 95 } }
      let sb := { sa with putCalled := true }
      match storage with
      | Except.ok url =>
        let completedAtv := clock sb.tick
        let expiresAtv := clock (sb.tick + 1) + 24 * 60 * 60 * 1000
        snap { sb with
          job := { sb.job with
            downloadUrl := some url
            status := JobStatus.completed
            progress := 100
            currentStep := "Concluído!"
            completedAt := some completedAtv
            expiresAt := some expiresAtv }
          tick := sb.tick + 2
          fileSys := removePath sb.fileSys finalOutputPath }
      | Except.error e =>
        snap { sb with
          job := { sb.job with
            status := JobStatus.error
            error := some ("Erro ao enviar para S3: " ++ e)
            currentStep := "Erro no upload" } }
    else if s.job.status ≠ JobStatus.error then
      snap { s with
        job := { s.job with
          status := JobStatus.error
          error := some "Arquivo de saída não encontrado"
          currentStep := "Erro no processamento" } }
    else
      snap s
  { s1 with fileSys := removePath s1.fileSys s1.job.inputPath }

/-- The opening synchronous block of `processJob` (jobQueue.ts lines
121-130): mark the job `processing`, set the opening `currentStep`, and
record the declared output path (the visual stage's when requested). -/
def initialState (job0 : Job) (fileSys0 : List String) (tick0 : Nat) : PipeState :=
  snap
    { job := { job0 with
        status := JobStatus.processing
        currentStep := "Iniciando processamento..."
        outputPath := some (if job0.visualPerturb then visualOutputPathOf job0.inputPath
                            else audioOutputPath job0.inputPath) }
      fileSys := fileSys0
      tick := tick0
      trace := []
      visualCalled := false
      putCalled := false }

/-- Stage 1 (jobQueue.ts lines 149-151): run the mandatory audio stage,
delivering every decoded event to `addStep`; the process may leave its
declared output artifact on disk. -/
def runAudioStage (clock : Nat → Nat) (b1 : StageBehavior) (inputPath : String)
    (s : PipeState) : PipeState :=
  let s1 := (runPythonScript b1).2.foldl (applyEvent clock) s
  { s1 with
    fileSys := if !b1.spawnFails && b1.createsOutput
               then addPath s1.fileSys (audioOutputPath inputPath)
               else s1.fileSys }

/-- Stage 2 (jobQueue.ts lines 164-183): announce the visual stage, run it
with every event remapped through `remapVisual`, then always delete the
intermediate audio artifact, regardless of the stage's outcome. -/
def runVisualStage (clock : Nat → Nat) (b2 : StageBehavior) (inputPath : String)
    (s : PipeState) : PipeState :=
  let s2 := snap { s with
    job := { s.job with currentStep := "Aplicando camada visual adversarial..." }
    visualCalled := true }
  let s3 := ((runPythonScript b2).2.map remapVisual).foldl (applyEvent clock) s2
  let s3 := { s3 with
    fileSys := if !b2.spawnFails && b2.createsOutput
               then addPath s3.fileSys (visualOutputPathOf inputPath)
               else s3.fileSys }
  { s3 with fileSys := removePath s3.fileSys (audioOutputPath inputPath) }

/-- The pipeline orchestrator `processJob` (jobQueue.ts lines 120-241),
parametrised by the clock, the behaviours of the two stage processes, and
the storage outcome.  Mirrors the source block by block: the opening block
(`initialState`), the mandatory stage (`runAudioStage`), its failure check
(non-zero exit or missing output: `failStage`), the optional visual stage
(`runVisualStage`) with the same failure policy, and the storage handoff
(`doUpload`). -/
def processJob (clock : Nat → Nat) (b1 b2 : StageBehavior)
    (storage : Except String String) (job0 : Job) (fileSys0 : List String)
    (tick0 : Nat) : PipeState :=
  let s1 := runAudioStage clock b1 job0.inputPath (initialState job0 fileSys0 tick0)
  if (runPythonScript b1).1 ≠ 0 ∨ ¬ pathExists s1.fileSys (audioOutputPath job0.inputPath) then
    failStage ("Processamento de áudio falhou (código " ++ toString (runPythonScript b1).1 ++ ")")
      "Erro no processamento de áudio" s1
  else if job0.visualPerturb then
    let s3 := runVisualStage clock b2 job0.inputPath s1
    if (runPythonScript b2).1 ≠ 0 ∨ ¬ pathExists s3.fileSys (visualOutputPathOf job0.inputPath) then
      failStage ("Perturbação visual falhou (código " ++ toString (runPythonScript b2).1 ++ ")")
        "Erro na perturbação visual" s3
    else
      doUpload clock storage (visualOutputPathOf job0.inputPath) s3
  else
    doUpload clock storage (audioOutputPath job0.inputPath) s1

/-- The job registry `const jobs = new Map<string, Job>()`, as an insertion
ordered association list (the JS `Map` iteration order). -/
abbrev Registry := List (String × Job)

/-- Lookup, `jobs.get(id)`. -/
def lookupJob (m : Registry) (k : String) : Option Job :=
  (List.find? (fun kv => kv.1 == k) m).map Prod.snd

/-- Update, `jobs.set(id, job)`: replace the value of an existing key in place,
otherwise append a new entry. -/
def mapSet (m : Registry) (k : String) (v : Job) : Registry :=
  if List.any m (fun kv => kv.1 == k) then
    List.map (fun kv => if kv.1 == k then (k, v) else kv) m
  else
    m ++ [(k, v)]

/-- The module-level mutable state of jobQueue.ts: the registry, the
`isWorkerRunning` flag, and the FIFO admission queue of job ids. -/
structure Store where
  jobs : Registry
  isWorkerRunning : Bool
  jobQueue : List String
deriving DecidableEq, Repr

/-- The function `createJob` (jobQueue.ts lines 37-53): build a fresh `queued` job,
`jobs.set` it (silently replacing any existing entry with the same id),
append the id to the FIFO queue and call `scheduleWorker`.  Returns the new
store, the job, and whether `scheduleWorker` actually scheduled the worker
(`setImmediate(runWorker)` is issued iff the running flag is clear,
lines 77-81). -/
def createJob (s : Store) (id originalName inputPath : String)
    (visualPerturb : Bool) (now : Nat) : Store × Job × Bool :=
  let job : Job :=
    { id := id
      originalName := originalName
      inputPath := inputPath
      status := JobStatus.queued
      progress := 0
      currentStep := "Na fila..."
      steps := []
      createdAt := now
      visualPerturb := visualPerturb }
  ({ s with jobs := mapSet s.jobs id job, jobQueue := s.jobQueue ++ [id] },
   job,
   !s.isWorkerRunning)

/-- The drain loop of `runWorker` (jobQueue.ts lines 87-93): while the queue
is non-empty, shift the next id; if the job exists and is still `queued`,
run the pipeline on it (abstracted as `process`, updating the registry) and
await it before shifting the next id; otherwise skip the id.  Returns the
final registry and the ids whose pipeline was invoked, in invocation order. -/
def workerLoop (process : Job → Job) :
    List String → Registry → Registry × List String
  | [], jobs => (jobs, [])
  | id :: rest, jobs =>
    match lookupJob jobs id with
    | none => workerLoop process rest jobs
    | some j =>
      if j.status = JobStatus.queued then
        let out := workerLoop process rest (mapSet jobs id (process j))
        (out.1, id :: out.2)
      else
        workerLoop process rest jobs

/-- The function `runWorker` (jobQueue.ts lines 83-96): a re-entry while the running flag
is set returns immediately (so the worker never runs concurrently with
itself); otherwise set the flag, drain the queue sequentially, and clear the
flag once the queue is empty. -/
def runWorker (process : Job → Job) (s : Store) : Store × List String :=
  if s.isWorkerRunning then
    (s, [])
  else
    let out := workerLoop process s.jobQueue s.jobs
    ({ jobs := out.1, isWorkerRunning := false, jobQueue := [] }, out.2)

/-- The protocol-reported error message standing last in a stream of decoded
events (`addStep` overwrites `job.error` on every error event, so the last
one wins; `none` when the stream reports no error). -/
def lastError (events : List ParsedEvent) : Option String :=
  (events.filterMap (fun e =>
    if strTruthy e.error then some (e.error.getD "") else none)).getLast?

/-- The percents of the progress-relevant events of a stream: step events
that are not error events and that carry a percent — exactly the events
that overwrite `job.progress` in `addStep`. -/
def stepPercents (events : List ParsedEvent) : List Int :=
  events.filterMap (fun e =>
    if !strTruthy e.error && strTruthy e.step then e.percent else none)

/-- The native percents the visual-stage wrapper feeds to `remapFormula`:
step events that are not error events, a missing percent defaulting to `0`
(`parsed.percent ?? 0`). -/
def nativeStepPercents (events : List ParsedEvent) : List Int :=
  events.filterMap (fun e =>
    if !strTruthy e.error && strTruthy e.step then some (e.percent.getD 0) else none)

/-- The file system right after the mandatory stage ran. -/
def fsAfterAudio (b1 : StageBehavior) (inputPath : String)
    (fileSys0 : List String) : List String :=
  if !b1.spawnFails && b1.createsOutput then addPath fileSys0 (audioOutputPath inputPath)
  else fileSys0

/-- The mandatory stage's failure condition (jobQueue.ts line 153): non-zero
exit code, or declared output artifact absent from disk. -/
def audioFails (b1 : StageBehavior) (inputPath : String)
    (fileSys0 : List String) : Prop :=
  (runPythonScript b1).1 ≠ 0 ∨
    ¬ pathExists (fsAfterAudio b1 inputPath fileSys0) (audioOutputPath inputPath)

/-- A job untouched by completion: none of the completion-only fields is set
and the status is not `completed`. -/
def NoCompletionFields (j : Job) : Prop :=
  j.completedAt = none ∧ j.expiresAt = none ∧ j.downloadUrl = none ∧
    j.status ≠ JobStatus.completed

/-- A freshly created job record for concrete runs. -/
def sampleJob (vp : Bool) : Job :=
  { id := "a"
    originalName := "a.mp4"
    inputPath := "/t/a.mp4"
    status := JobStatus.queued
    progress := 0
    currentStep := "Na fila..."
    steps := []
    createdAt := 0
    visualPerturb := vp }

/-- A clock that never advances between `Date.now()` calls. -/
def zeroClock : Nat → Nat := fun _ => 0

/-- A clock that advances by one millisecond at every `Date.now()` call. -/
def idClock : Nat → Nat := fun n => n

/-- Concrete run: the mandatory stage emits a step event with the
out-of-range percent `150` and then fails (no output artifact). -/
def c2run : PipeState :=
  processJob zeroClock { events := [{ step := some "x", percent := some 150 }] } {}
    (Except.ok "u") (sampleJob false) ["/t/a.mp4"] 0

/-- Concrete run: the mandatory stage reports a protocol error event, then
exits `0` with its output artifact present, and the storage put succeeds. -/
def c3run : PipeState :=
  processJob zeroClock { events := [{ error := some "boom" }], createsOutput := true } {}
    (Except.ok "u") (sampleJob false) ["/t/a.mp4"] 0

/-- Concrete run: a clean single-stage success under the ticking clock. -/
def c6run : PipeState :=
  processJob idClock { createsOutput := true } {}
    (Except.ok "u") (sampleJob false) ["/t/a.mp4"] 0

/-- Concrete run: a two-stage job whose mandatory stage reaches percent 100
before the visual stage starts at native percent 0 (remapped to 50). -/
def c7run : PipeState :=
  processJob zeroClock
    { events := [{ step := some "a", percent := some 100 }], createsOutput := true }
    { events := [{ step := some "b", percent := some 0 }], createsOutput := true }
    (Except.ok "u") (sampleJob true) ["/t/a.mp4"] 0

/-- Concrete run: create a first job with id `"a"`. -/
def c8store1 : Store × Job × Bool :=
  createJob { jobs := [], isWorkerRunning := false, jobQueue := [] }
    "a" "one.mp4" "/t/one.mp4" false 5

/-- Concrete run: create a second job with the same id `"a"`. -/
def c8store2 : Store × Job × Bool :=
  createJob c8store1.1 "a" "two.mp4" "/t/two.mp4" true 9

/-- Concrete behaviour: two protocol errors, then exit code 2. -/
def twoErrorsBehavior : StageBehavior :=
  { events := [{ error := some "first" }, { error := some "second" }], exitCode := 2 }

/-- Concrete behaviour: one in-range step event, clean exit with output. -/
def oneStepBehavior : StageBehavior :=
  { events := [{ step := some "x", percent := some 50 }], createsOutput := true }

/-- Concrete behaviour: one in-range step event at percent 40, clean exit. -/
def fortyBehavior : StageBehavior :=
  { events := [{ step := some "a", percent := some 40 }], createsOutput := true }

/-- The real pipeline as a scheduler `process` argument (a fixed benign
environment: no stage events, clean exits, storage succeeds). -/
def pipelineProcess : Job → Job :=
  fun j => (processJob zeroClock {} {} (Except.ok "u") j [] 0).job

/-! Basic lemmas about `addStep` and event delivery. -/

theorem addStep_preserved (now : Nat) (e : ParsedEvent) (j : Job) :
    (addStep now e j).inputPath = j.inputPath ∧
    (addStep now e j).completedAt = j.completedAt ∧
    (addStep now e j).expiresAt = j.expiresAt ∧
    (addStep now e j).downloadUrl = j.downloadUrl := by
  unfold addStep
  split
  · exact ⟨rfl, rfl, rfl, rfl⟩
  split
  · exact ⟨rfl, rfl, rfl, rfl⟩
  · exact ⟨rfl, rfl, rfl, rfl⟩

theorem addStep_status (now : Nat) (e : ParsedEvent) (j : Job) :
    (addStep now e j).status =
      if strTruthy e.error then JobStatus.error else j.status := by
  unfold addStep
  split
  · simp [*]
  split <;> simp [*]

theorem addStep_error_eq (now : Nat) (e : ParsedEvent) (j : Job) :
    (addStep now e j).error =
      if strTruthy e.error then some (e.error.getD "") else j.error := by
  unfold addStep
  split
  · simp [*]
  split <;> simp [*]

theorem addStep_progress (now : Nat) (e : ParsedEvent) (j : Job) :
    (addStep now e j).progress =
      if !strTruthy e.error && strTruthy e.step
      then e.percent.getD j.progress
      else j.progress := by
  unfold addStep
  split
  · simp [*]
  split <;> simp [*]

theorem applyEvent_fileSys (c : Nat → Nat) (s : PipeState) (e : ParsedEvent) :
    (applyEvent c s e).fileSys = s.fileSys := rfl

theorem applyEvent_visualCalled (c : Nat → Nat) (s : PipeState) (e : ParsedEvent) :
    (applyEvent c s e).visualCalled = s.visualCalled := rfl

theorem applyEvent_putCalled (c : Nat → Nat) (s : PipeState) (e : ParsedEvent) :
    (applyEvent c s e).putCalled = s.putCalled := rfl

theorem applyEvent_job (c : Nat → Nat) (s : PipeState) (e : ParsedEvent) :
    (applyEvent c s e).job = addStep (c s.tick) e s.job := rfl

theorem applyEvent_trace (c : Nat → Nat) (s : PipeState) (e : ParsedEvent) :
    (applyEvent c s e).trace = s.trace ++ [addStep (c s.tick) e s.job] := rfl

theorem foldl_applyEvent_fileSys (c : Nat → Nat) (events : List ParsedEvent)
    (s : PipeState) :
    (events.foldl (applyEvent c) s).fileSys = s.fileSys := by
  induction events generalizing s with
  | nil => rfl
  | cons e t ih => rw [List.foldl_cons, ih, applyEvent_fileSys]

theorem foldl_applyEvent_visualCalled (c : Nat → Nat) (events : List ParsedEvent)
    (s : PipeState) :
    (events.foldl (applyEvent c) s).visualCalled = s.visualCalled := by
  induction events generalizing s with
  | nil => rfl
  | cons e t ih => rw [List.foldl_cons, ih, applyEvent_visualCalled]

theorem foldl_applyEvent_putCalled (c : Nat → Nat) (events : List ParsedEvent)
    (s : PipeState) :
    (events.foldl (applyEvent c) s).putCalled = s.putCalled := by
  induction events generalizing s with
  | nil => rfl
  | cons e t ih => rw [List.foldl_cons, ih, applyEvent_putCalled]

theorem foldl_applyEvent_inputPath (c : Nat → Nat) (events : List ParsedEvent)
    (s : PipeState) :
    (events.foldl (applyEvent c) s).job.inputPath = s.job.inputPath := by
  induction events generalizing s with
  | nil => rfl
  | cons e t ih =>
    rw [List.foldl_cons, ih, applyEvent_job, (addStep_preserved _ _ _).1]

/-! The error-latching behaviour of a stream of events. -/

theorem lastError_append (l : List ParsedEvent) (e : ParsedEvent) :
    lastError (l ++ [e]) =
      if strTruthy e.error then some (e.error.getD "") else lastError l := by
  unfold lastError
  rw [List.filterMap_append]
  split
  · simp [List.filterMap, *]
  · simp [List.filterMap, *]

theorem foldl_applyEvent_error (c : Nat → Nat) (events : List ParsedEvent)
    (s : PipeState) :
    (lastError events = none →
      (events.foldl (applyEvent c) s).job.error = s.job.error ∧
      (events.foldl (applyEvent c) s).job.status = s.job.status) ∧
    (∀ m, lastError events = some m →
      (events.foldl (applyEvent c) s).job.error = some m ∧
      (events.foldl (applyEvent c) s).job.status = JobStatus.error) := by
  induction events using List.reverseRecOn generalizing s with
  | nil => simp [lastError]
  | append_singleton l e ih =>
    rw [List.foldl_append]
    rw [lastError_append]
    set s1 := l.foldl (applyEvent c) s with hs1
    have hjob : (List.foldl (applyEvent c) s1 [e]).job = addStep (c s1.tick) e s1.job := rfl
    by_cases he : strTruthy e.error
    · constructor
      · intro hnone
        simp [he] at hnone
      · intro m hm
        simp [he] at hm
        rw [hjob, addStep_error_eq, addStep_status]
        simp [he, hm]
    · constructor
      · intro hnone
        simp [he] at hnone
        rw [hjob, addStep_error_eq, addStep_status]
        simp [he]
        exact (ih s).1 hnone
      · intro m hm
        simp [he] at hm
        rw [hjob, addStep_error_eq, addStep_status]
        simp [he]
        exact (ih s).2 m hm

/-! Phase-level lemmas. -/

theorem runAudioStage_fileSys (c : Nat → Nat) (b1 : StageBehavior) (ip : String)
    (s : PipeState) :
    (runAudioStage c b1 ip s).fileSys = fsAfterAudio b1 ip s.fileSys := by
  simp only [runAudioStage, fsAfterAudio, foldl_applyEvent_fileSys]

theorem runAudioStage_job (c : Nat → Nat) (b1 : StageBehavior) (ip : String)
    (s : PipeState) :
    (runAudioStage c b1 ip s).job = ((runPythonScript b1).2.foldl (applyEvent c) s).job := rfl

theorem runAudioStage_visualCalled (c : Nat → Nat) (b1 : StageBehavior) (ip : String)
    (s : PipeState) :
    (runAudioStage c b1 ip s).visualCalled = s.visualCalled := by
  simp only [runAudioStage, foldl_applyEvent_visualCalled]

theorem runAudioStage_putCalled (c : Nat → Nat) (b1 : StageBehavior) (ip : String)
    (s : PipeState) :
    (runAudioStage c b1 ip s).putCalled = s.putCalled := by
  simp only [runAudioStage, foldl_applyEvent_putCalled]

theorem failStage_status (g m : String) (s : PipeState) :
    (failStage g m s).job.status = JobStatus.error := by
  unfold failStage
  split
  · rfl
  · next h => exact not_not.mp h

theorem failStage_error_of_ne (g m : String) (s : PipeState)
    (h : s.job.status ≠ JobStatus.error) :
    (failStage g m s).job.error = some g := by
  unfold failStage
  rw [if_pos h]
  rfl

theorem failStage_error_of_eq (g m : String) (s : PipeState)
    (h : s.job.status = JobStatus.error) :
    (failStage g m s).job.error = s.job.error := by
  unfold failStage
  rw [if_neg (by simp [h])]
  rfl

theorem failStage_fileSys (g m : String) (s : PipeState) :
    (failStage g m s).fileSys = removePath s.fileSys s.job.inputPath := by
  unfold failStage
  split <;> rfl

theorem failStage_visualCalled (g m : String) (s : PipeState) :
    (failStage g m s).visualCalled = s.visualCalled := by
  unfold failStage
  split <;> rfl

theorem failStage_putCalled (g m : String) (s : PipeState) :
    (failStage g m s).putCalled = s.putCalled := by
  unfold failStage
  split <;> rfl

theorem failStage_trace (g m : String) (s : PipeState) :
    (failStage g m s).trace = s.trace ++ [(failStage g m s).job] := by
  unfold failStage
  split <;> rfl

theorem failStage_progress (g m : String) (s : PipeState) :
    (failStage g m s).job.progress = s.job.progress := by
  unfold failStage
  split <;> rfl

theorem doUpload_status (c : Nat → Nat) (st : Except String String) (fop : String)
    (s : PipeState) :
    (doUpload c st fop s).job.status = JobStatus.error ∨
      (doUpload c st fop s).job.status = JobStatus.completed := by
  unfold doUpload
  split
  · cases st with
    | error e => left; rfl
    | ok url => right; rfl
  · split
    · left; rfl
    · next h => left; exact not_not.mp h

theorem removePath_not_exists (fileSys : List String) (p : String) :
    pathExists (removePath fileSys p) p = false := by
  simp [pathExists, removePath, List.contains_iff_exists_mem_beq]

theorem processJob_status_terminal (clock : Nat → Nat) (b1 b2 : StageBehavior)
    (storage : Except String String) (job0 : Job) (fileSys0 : List String)
    (tick0 : Nat) :
    (processJob clock b1 b2 storage job0 fileSys0 tick0).job.status = JobStatus.error ∨
    (processJob clock b1 b2 storage job0 fileSys0 tick0).job.status = JobStatus.completed := by
  simp only [processJob]
  split
  · left
    exact failStage_status _ _ _
  · split
    · split
      · left
        exact failStage_status _ _ _
      · exact doUpload_status _ _ _ _
    · exact doUpload_status _ _ _ _

/-! Registry lemmas: `jobs.get` after `jobs.set`. -/

theorem lookup_map_replace_ne (m : Registry) (k k' : String) (v : Job)
    (hne : k' ≠ k) :
    lookupJob (m.map (fun kv => if kv.1 == k then (k, v) else kv)) k' =
      lookupJob m k' := by
  induction m with
  | nil => rfl
  | cons a t ih =>
    rw [List.map_cons]
    unfold lookupJob at ih ⊢
    rw [List.find?_cons, List.find?_cons]
    by_cases ha : (a.1 == k) = true
    · rw [if_pos ha]
      have ha' : a.1 = k := by simpa using ha
      have h1 : ((k, v).1 == k') = false := by simpa using fun h => hne h.symm
      have h2 : (a.1 == k') = false := by
        rw [ha']
        simpa using fun h => hne h.symm
      simp only [h1, h2]
      exact ih
    · rw [if_neg ha]
      cases h2 : (a.1 == k') with
      | true => simp only [h2]
      | false =>
        simp only [h2]
        exact ih

theorem lookup_map_replace_eq (m : Registry) (k : String) (v : Job)
    (hany : List.any m (fun kv => kv.1 == k) = true) :
    lookupJob (m.map (fun kv => if kv.1 == k then (k, v) else kv)) k = some v := by
  induction m with
  | nil => cases hany
  | cons a t ih =>
    rw [List.map_cons]
    unfold lookupJob at ih ⊢
    rw [List.find?_cons]
    by_cases ha : (a.1 == k) = true
    · rw [if_pos ha]
      simp
    · rw [if_neg ha]
      have ha' : (a.1 == k) = false := by simpa using ha
      simp only [ha']
      refine ih ?_
      simpa [List.any_cons, ha'] using hany

theorem lookupJob_mapSet (m : Registry) (k k' : String) (v : Job) :
    lookupJob (mapSet m k v) k' = if k' = k then some v else lookupJob m k' := by
  unfold mapSet
  by_cases hany : List.any m (fun kv => kv.1 == k) = true
  · rw [if_pos hany]
    by_cases hk : k' = k
    · rw [if_pos hk, hk]
      exact lookup_map_replace_eq m k v hany
    · rw [if_neg hk]
      exact lookup_map_replace_ne m k k' v hk
  · rw [if_neg hany]
    by_cases hk : k' = k
    · rw [if_pos hk]
      subst hk
      unfold lookupJob
      rw [List.find?_append]
      have hnone : List.find? (fun kv => kv.1 == k') m = none := by
        rw [List.find?_eq_none]
        intro x hx hbeq
        exact hany (List.any_eq_true.mpr ⟨x, hx, hbeq⟩)
      rw [hnone]
      simp
    · rw [if_neg hk]
      unfold lookupJob
      rw [List.find?_append]
      have hlast : List.find? (fun kv => kv.1 == k') [(k, v)] = none := by
        simp only [List.find?]
        rw [show ((k, v).1 == k') = false from by simpa using fun h => hk h.symm]
      rw [hlast]
      cases hf : List.find? (fun kv => kv.1 == k') m <;> simp

/-! Worker-loop lemmas. -/

theorem workerLoop_sublist (process : Job → Job) (q : List String) (jobs : Registry) :
    List.Sublist (workerLoop process q jobs).2 q := by
  induction q generalizing jobs with
  | nil => simp [workerLoop]
  | cons a rest ih =>
    unfold workerLoop
    split
    · exact List.Sublist.cons a (ih jobs)
    · split
      · exact List.Sublist.cons₂ a (ih _)
      · exact List.Sublist.cons a (ih jobs)

theorem workerLoop_queued (process : Job → Job)
    (hp : ∀ j, (process j).status ≠ JobStatus.queued)
    (q : List String) (jobs jobs0 : Registry)
    (hinv : ∀ k, lookupJob jobs k = lookupJob jobs0 k ∨
      (∃ j, lookupJob jobs k = some j ∧ j.status ≠ JobStatus.queued)) :
    ∀ id ∈ (workerLoop process q jobs).2,
      ∃ j, lookupJob jobs0 id = some j ∧ j.status = JobStatus.queued := by
  induction q generalizing jobs with
  | nil =>
    intro id hid
    simp [workerLoop] at hid
  | cons a rest ih =>
    intro id hid
    unfold workerLoop at hid
    split at hid
    · exact ih jobs hinv id hid
    · next j hlk =>
      split at hid
      · next hst =>
        have hid' : id = a ∨ id ∈ (workerLoop process rest (mapSet jobs a (process j))).2 :=
          List.mem_cons.mp hid
        rcases hid' with h | h
        · subst h
          rcases hinv id with hsame | ⟨j', hj', hnq⟩
          · exact ⟨j, by rw [← hsame]; exact hlk, hst⟩
          · rw [hlk] at hj'
            cases hj'
            exact absurd hst hnq
        · refine ih (mapSet jobs a (process j)) ?_ id h
          intro k
          by_cases hk : k = a
          · subst hk
            right
            exact ⟨process j, by rw [lookupJob_mapSet]; simp, hp j⟩
          · rw [lookupJob_mapSet, if_neg hk]
            exact hinv k
      · next hst =>
        exact ih jobs hinv id hid

theorem workerLoop_complete (process : Job → Job) (q : List String) (jobs : Registry) :
    ∀ id ∈ q, (∃ j, lookupJob jobs id = some j ∧ j.status = JobStatus.queued) →
      id ∈ (workerLoop process q jobs).2 := by
  induction q generalizing jobs with
  | nil => simp
  | cons a rest ih =>
    intro id hid hq
    unfold workerLoop
    split
    · next hlk =>
      rcases List.mem_cons.mp hid with h | h
      · subst h
        rcases hq with ⟨j, hj, _⟩
        rw [hlk] at hj
        cases hj
      · exact ih jobs id h hq
    · next j hlk =>
      split
      · next hst =>
        show id ∈ a :: (workerLoop process rest (mapSet jobs a (process j))).2
        by_cases hk : id = a
        · subst hk
          exact List.mem_cons_self id _
        · rcases List.mem_cons.mp hid with h | h
          · exact absurd h hk
          · refine List.mem_cons_of_mem a ?_
            refine ih (mapSet jobs a (process j)) id h ?_
            rcases hq with ⟨j', hj', hst'⟩
            refine ⟨j', ?_, hst'⟩
            rw [lookupJob_mapSet, if_neg hk]
            exact hj'
      · next hst =>
        rcases List.mem_cons.mp hid with h | h
        · subst h
          rcases hq with ⟨j', hj', hst'⟩
          rw [hlk] at hj'
          cases hj'
          exact absurd hst' hst
        · exact ih jobs id h hq

/-! Completion-field lemmas. -/

theorem addStep_noCompletion (now : Nat) (e : ParsedEvent) (j : Job)
    (h : NoCompletionFields j) : NoCompletionFields (addStep now e j) := by
  obtain ⟨hc, he, hd, hs⟩ := h
  obtain ⟨-, pc, pe, pd⟩ := addStep_preserved now e j
  refine ⟨pc.trans hc, pe.trans he, pd.trans hd, ?_⟩
  rw [addStep_status]
  split
  · decide
  · exact hs

theorem foldl_applyEvent_noCompletion (c : Nat → Nat) (events : List ParsedEvent)
    (s : PipeState) (hs : NoCompletionFields s.job) :
    NoCompletionFields (events.foldl (applyEvent c) s).job ∧
    ∀ j ∈ (events.foldl (applyEvent c) s).trace, j ∈ s.trace ∨ NoCompletionFields j := by
  induction events generalizing s with
  | nil => exact ⟨hs, fun j hj => Or.inl hj⟩
  | cons e t ih =>
    rw [List.foldl_cons]
    have hs' : NoCompletionFields (applyEvent c s e).job := by
      rw [applyEvent_job]
      exact addStep_noCompletion _ _ _ hs
    obtain ⟨h1, h2⟩ := ih (applyEvent c s e) hs'
    refine ⟨h1, fun j hj => ?_⟩
    rcases h2 j hj with hmem | hnc
    · rw [applyEvent_trace] at hmem
      rcases List.mem_append.mp hmem with hmem | hmem
      · exact Or.inl hmem
      · simp only [List.mem_singleton] at hmem
        subst hmem
        exact Or.inr (addStep_noCompletion _ _ _ hs)
    · exact Or.inr hnc

theorem failStage_job_noCompletion (g m : String) (s : PipeState)
    (hs : NoCompletionFields s.job) : NoCompletionFields (failStage g m s).job := by
  unfold failStage
  split
  · exact ⟨hs.1, hs.2.1, hs.2.2.1, by intro h; cases h⟩
  · exact hs

theorem failStage_trace_noCompletion (g m : String) (s : PipeState)
    (hs : NoCompletionFields s.job) :
    ∀ j ∈ (failStage g m s).trace, j ∈ s.trace ∨ NoCompletionFields j := by
  intro j hj
  rw [failStage_trace] at hj
  rcases List.mem_append.mp hj with h | h
  · exact Or.inl h
  · simp only [List.mem_singleton] at h
    subst h
    exact Or.inr (failStage_job_noCompletion g m s hs)

theorem doUpload_noCompletion (c : Nat → Nat) (st : Except String String)
    (fop : String) (s : PipeState) (hs : NoCompletionFields s.job) :
    (∀ j ∈ (doUpload c st fop s).trace,
      j ∈ s.trace ∨ NoCompletionFields j ∨
        (j.status = JobStatus.completed ∧ j = (doUpload c st fop s).job)) ∧
    ((doUpload c st fop s).job.status = JobStatus.completed →
      ∃ t, (doUpload c st fop s).job.completedAt = some (c t) ∧
        (doUpload c st fop s).job.expiresAt = some (c (t + 1) + 24 * 60 * 60 * 1000) ∧
        (doUpload c st fop s).job.downloadUrl ≠ none) := by
  have h95 : NoCompletionFields
      { s.job with currentStep := "Enviando para armazenamento...", progress := 95 } :=
    ⟨hs.1, hs.2.1, hs.2.2.1, hs.2.2.2⟩
  unfold doUpload
  split
  · cases st with
    | error e =>
      constructor
      · intro j hj
        rcases List.mem_append.mp hj with hj' | hj'
        · rcases List.mem_append.mp hj' with h | h
          · exact Or.inl h
          · simp only [List.mem_singleton] at h
            subst h
            exact Or.inr (Or.inl h95)
        · simp only [List.mem_singleton] at hj'
          subst hj'
          exact Or.inr (Or.inl ⟨hs.1, hs.2.1, hs.2.2.1, by intro h; cases h⟩)
      · intro hcomp
        cases hcomp
    | ok url =>
      constructor
      · intro j hj
        rcases List.mem_append.mp hj with hj' | hj'
        · rcases List.mem_append.mp hj' with h | h
          · exact Or.inl h
          · simp only [List.mem_singleton] at h
            subst h
            exact Or.inr (Or.inl h95)
        · simp only [List.mem_singleton] at hj'
          subst hj'
          exact Or.inr (Or.inr ⟨rfl, rfl⟩)
      · intro _
        exact ⟨s.tick, rfl, rfl, by intro h; cases h⟩
  · split
    · constructor
      · intro j hj
        rcases List.mem_append.mp hj with h | h
        · exact Or.inl h
        · simp only [List.mem_singleton] at h
          subst h
          exact Or.inr (Or.inl ⟨hs.1, hs.2.1, hs.2.2.1, by intro h; cases h⟩)
      · intro hcomp
        cases hcomp
    · constructor
      · intro j hj
        rcases List.mem_append.mp hj with h | h
        · exact Or.inl h
        · simp only [List.mem_singleton] at h
          subst h
          exact Or.inr (Or.inl hs)
      · intro hcomp
        exact absurd hcomp hs.2.2.2

/-! Progress-monotonicity machinery. -/

theorem remapFormula_mono {p q : Int} (hpq : p ≤ q) :
    remapFormula p ≤ remapFormula q := by
  unfold remapFormula
  omega

theorem remapFormula_bounds {p : Int} (h0 : 0 ≤ p) (h100 : p ≤ 100) :
    50 ≤ remapFormula p ∧ remapFormula p ≤ 95 := by
  unfold remapFormula
  omega

theorem chain_le_append_last {l : List Int} {x y : Int}
    (hc : List.Chain' (fun a b => a ≤ b) l) (hl : l.getLast? = some x) (hxy : x ≤ y) :
    List.Chain' (fun a b => a ≤ b) (l ++ [y]) := by
  rw [List.chain'_append]
  refine ⟨hc, List.chain'_singleton y, ?_⟩
  intro a ha b hb
  rw [hl] at ha
  simp only [Option.mem_def, Option.some_inj] at ha
  simp only [List.head?_cons, Option.mem_def, Option.some_inj] at hb
  rw [← ha, ← hb]
  exact hxy

theorem chain_trace_snap {tr : List Job} {jl : Job} (jnew : Job)
    (hc : List.Chain' (fun a b => a ≤ b) (tr.map Job.progress))
    (hl : tr.getLast? = some jl) (hle : jl.progress ≤ jnew.progress) :
    List.Chain' (fun a b => a ≤ b) ((tr ++ [jnew]).map Job.progress) := by
  rw [List.map_append]
  refine chain_le_append_last hc ?_ hle
  rw [List.getLast?_map, hl]
  rfl

theorem foldl_applyEvent_lastSnap (c : Nat → Nat) (events : List ParsedEvent)
    (s : PipeState) (h : s.trace.getLast? = some s.job) :
    (events.foldl (applyEvent c) s).trace.getLast? =
      some (events.foldl (applyEvent c) s).job := by
  induction events generalizing s with
  | nil => exact h
  | cons e t ih =>
    rw [List.foldl_cons]
    refine ih _ ?_
    rw [applyEvent_trace, applyEvent_job, List.getLast?_concat]

theorem stepPercents_cons_irrelevant {e : ParsedEvent} (t : List ParsedEvent)
    (h : (!strTruthy e.error && strTruthy e.step) = false ∨ e.percent = none) :
    stepPercents (e :: t) = stepPercents t := by
  unfold stepPercents
  rw [List.filterMap_cons]
  rcases h with h | h <;> simp [h]

theorem stepPercents_cons_percent {e : ParsedEvent} (t : List ParsedEvent) {p : Int}
    (hrel : (!strTruthy e.error && strTruthy e.step) = true) (hp : e.percent = some p) :
    stepPercents (e :: t) = p :: stepPercents t := by
  unfold stepPercents
  rw [List.filterMap_cons]
  simp [hrel, hp]

theorem foldl_applyEvent_chain (c : Nat → Nat) (events : List ParsedEvent)
    (s : PipeState)
    (hlast : s.trace.getLast? = some s.job)
    (hchain : List.Chain' (fun a b => a ≤ b) (s.trace.map Job.progress))
    (hev : List.Chain' (fun a b => a ≤ b) (s.job.progress :: stepPercents events)) :
    List.Chain' (fun a b => a ≤ b)
        ((events.foldl (applyEvent c) s).trace.map Job.progress) ∧
    (events.foldl (applyEvent c) s).job.progress =
      (stepPercents events).getLastD s.job.progress := by
  induction events generalizing s with
  | nil => exact ⟨hchain, rfl⟩
  | cons e t ih =>
    rw [List.foldl_cons]
    have hprog : (applyEvent c s e).job.progress =
        if !strTruthy e.error && strTruthy e.step
        then e.percent.getD s.job.progress
        else s.job.progress := by
      rw [applyEvent_job, addStep_progress]
    have hlast' : (applyEvent c s e).trace.getLast? = some (applyEvent c s e).job := by
      rw [applyEvent_trace, applyEvent_job, List.getLast?_concat]
    by_cases hrel : (!strTruthy e.error && strTruthy e.step) = true
    · cases hp : e.percent with
      | none =>
        have hsp : stepPercents (e :: t) = stepPercents t :=
          stepPercents_cons_irrelevant t (Or.inr hp)
        have hprog' : (applyEvent c s e).job.progress = s.job.progress := by
          rw [hprog, if_pos hrel, hp]
          rfl
        have hchain' : List.Chain' (fun a b => a ≤ b)
            ((applyEvent c s e).trace.map Job.progress) := by
          rw [applyEvent_trace]
          exact chain_trace_snap _ hchain hlast (by
            rw [show (addStep (c s.tick) e s.job) = (applyEvent c s e).job from rfl, hprog'])
        rw [hsp] at hev
        obtain ⟨h1, h2⟩ := ih (applyEvent c s e)
          hlast' hchain' (by rw [hprog']; exact hev)
        exact ⟨h1, by rw [h2, hprog', hsp]⟩
      | some p =>
        have hsp : stepPercents (e :: t) = p :: stepPercents t :=
          stepPercents_cons_percent t hrel hp
        have hprog' : (applyEvent c s e).job.progress = p := by
          rw [hprog, if_pos hrel, hp]
          rfl
        rw [hsp] at hev
        obtain ⟨hab, htail⟩ := List.chain'_cons.mp hev
        have hchain' : List.Chain' (fun a b => a ≤ b)
            ((applyEvent c s e).trace.map Job.progress) := by
          rw [applyEvent_trace]
          exact chain_trace_snap _ hchain hlast (by
            rw [show (addStep (c s.tick) e s.job) = (applyEvent c s e).job from rfl, hprog']
            exact hab)
        obtain ⟨h1, h2⟩ := ih (applyEvent c s e)
          hlast' hchain' (by rw [hprog']; exact htail)
        refine ⟨h1, ?_⟩
        rw [h2, hprog', hsp, List.getLastD_cons]
    · have hrel' : (!strTruthy e.error && strTruthy e.step) = false := by
        simpa using hrel
      have hsp : stepPercents (e :: t) = stepPercents t :=
        stepPercents_cons_irrelevant t (Or.inl hrel')
      have hprog' : (applyEvent c s e).job.progress = s.job.progress := by
        rw [hprog, if_neg (by simp [hrel'])]
      have hchain' : List.Chain' (fun a b => a ≤ b)
          ((applyEvent c s e).trace.map Job.progress) := by
        rw [applyEvent_trace]
        exact chain_trace_snap _ hchain hlast (by
          rw [show (addStep (c s.tick) e s.job) = (applyEvent c s e).job from rfl, hprog'])
      rw [hsp] at hev
      obtain ⟨h1, h2⟩ := ih (applyEvent c s e)
        hlast' hchain' (by rw [hprog']; exact hev)
      exact ⟨h1, by rw [h2, hprog', hsp]⟩

theorem remapVisual_error (e : ParsedEvent) : (remapVisual e).error = e.error := by
  unfold remapVisual
  split <;> rfl

theorem remapVisual_step (e : ParsedEvent) : (remapVisual e).step = e.step := by
  unfold remapVisual
  split <;> rfl

theorem remapVisual_message (e : ParsedEvent) : (remapVisual e).message = e.message := by
  unfold remapVisual
  split <;> rfl

theorem remapVisual_percent_of (e : ParsedEvent) (hst : strTruthy e.step = true) :
    (remapVisual e).percent = some (remapFormula (e.percent.getD 0)) := by
  unfold remapVisual
  rw [if_pos hst]

theorem nativeStepPercents_cons_rel {e : ParsedEvent} (t : List ParsedEvent)
    (hrel : (!strTruthy e.error && strTruthy e.step) = true) :
    nativeStepPercents (e :: t) = (e.percent.getD 0) :: nativeStepPercents t := by
  unfold nativeStepPercents
  rw [List.filterMap_cons]
  simp [hrel]

theorem nativeStepPercents_cons_irrel {e : ParsedEvent} (t : List ParsedEvent)
    (hrel : (!strTruthy e.error && strTruthy e.step) = false) :
    nativeStepPercents (e :: t) = nativeStepPercents t := by
  unfold nativeStepPercents
  rw [List.filterMap_cons]
  simp [hrel]

theorem stepPercents_map_remapVisual (events : List ParsedEvent) :
    stepPercents (events.map remapVisual) =
      (nativeStepPercents events).map remapFormula := by
  induction events with
  | nil => rfl
  | cons e t ih =>
    rw [List.map_cons]
    by_cases hrel : (!strTruthy e.error && strTruthy e.step) = true
    · have hst : strTruthy e.step = true := (by simpa using hrel : (!strTruthy e.error) = true ∧ strTruthy e.step = true).2
      have hrel' : (!strTruthy (remapVisual e).error && strTruthy (remapVisual e).step) = true := by
        rw [remapVisual_error, remapVisual_step]
        exact hrel
      rw [stepPercents_cons_percent (t.map remapVisual) hrel' (remapVisual_percent_of e hst)]
      rw [nativeStepPercents_cons_rel t hrel]
      rw [List.map_cons, ih]
    · have hrelf : (!strTruthy e.error && strTruthy e.step) = false := by
        simpa using hrel
      have hrel' : (!strTruthy (remapVisual e).error && strTruthy (remapVisual e).step) = false := by
        rw [remapVisual_error, remapVisual_step]
        exact hrelf
      rw [stepPercents_cons_irrelevant (t.map remapVisual) (Or.inl hrel')]
      rw [nativeStepPercents_cons_irrel t hrelf]
      exact ih

/-! Branch equations for `processJob` and remaining phase lemmas. -/

theorem initialState_trace (job0 : Job) (fileSys0 : List String) (tick0 : Nat) :
    (initialState job0 fileSys0 tick0).trace = [(initialState job0 fileSys0 tick0).job] := rfl

theorem initialState_fileSys (job0 : Job) (fileSys0 : List String) (tick0 : Nat) :
    (initialState job0 fileSys0 tick0).fileSys = fileSys0 := rfl

theorem runAudioStage_trace (c : Nat → Nat) (b1 : StageBehavior) (ip : String)
    (s : PipeState) :
    (runAudioStage c b1 ip s).trace =
      ((runPythonScript b1).2.foldl (applyEvent c) s).trace := rfl

theorem runVisualStage_job (c : Nat → Nat) (b2 : StageBehavior) (ip : String)
    (s : PipeState) :
    (runVisualStage c b2 ip s).job =
      (((runPythonScript b2).2.map remapVisual).foldl (applyEvent c)
        (snap { s with
          job := { s.job with currentStep := "Aplicando camada visual adversarial..." }
          visualCalled := true })).job := rfl

theorem runVisualStage_trace (c : Nat → Nat) (b2 : StageBehavior) (ip : String)
    (s : PipeState) :
    (runVisualStage c b2 ip s).trace =
      (((runPythonScript b2).2.map remapVisual).foldl (applyEvent c)
        (snap { s with
          job := { s.job with currentStep := "Aplicando camada visual adversarial..." }
          visualCalled := true })).trace := rfl

theorem processJob_eq_fail1 (clock : Nat → Nat) (b1 b2 : StageBehavior)
    (storage : Except String String) (job0 : Job) (fileSys0 : List String) (tick0 : Nat)
    (h : (runPythonScript b1).1 ≠ 0 ∨
      ¬ pathExists (runAudioStage clock b1 job0.inputPath
          (initialState job0 fileSys0 tick0)).fileSys (audioOutputPath job0.inputPath)) :
    processJob clock b1 b2 storage job0 fileSys0 tick0 =
      failStage
        ("Processamento de áudio falhou (código " ++ toString (runPythonScript b1).1 ++ ")")
        "Erro no processamento de áudio"
        (runAudioStage clock b1 job0.inputPath (initialState job0 fileSys0 tick0)) := by
  simp only [processJob]
  rw [if_pos h]

theorem processJob_eq_upload1 (clock : Nat → Nat) (b1 b2 : StageBehavior)
    (storage : Except String String) (job0 : Job) (fileSys0 : List String) (tick0 : Nat)
    (h1 : ¬ ((runPythonScript b1).1 ≠ 0 ∨
      ¬ pathExists (runAudioStage clock b1 job0.inputPath
          (initialState job0 fileSys0 tick0)).fileSys (audioOutputPath job0.inputPath)))
    (h2 : job0.visualPerturb = false) :
    processJob clock b1 b2 storage job0 fileSys0 tick0 =
      doUpload clock storage (audioOutputPath job0.inputPath)
        (runAudioStage clock b1 job0.inputPath (initialState job0 fileSys0 tick0)) := by
  simp only [processJob]
  rw [if_neg h1, if_neg (by rw [h2]; exact Bool.false_ne_true)]

theorem processJob_eq_fail2 (clock : Nat → Nat) (b1 b2 : StageBehavior)
    (storage : Except String String) (job0 : Job) (fileSys0 : List String) (tick0 : Nat)
    (h1 : ¬ ((runPythonScript b1).1 ≠ 0 ∨
      ¬ pathExists (runAudioStage clock b1 job0.inputPath
          (initialState job0 fileSys0 tick0)).fileSys (audioOutputPath job0.inputPath)))
    (h2 : job0.visualPerturb = true)
    (h3 : (runPythonScript b2).1 ≠ 0 ∨
      ¬ pathExists (runVisualStage clock b2 job0.inputPath
          (runAudioStage clock b1 job0.inputPath
            (initialState job0 fileSys0 tick0))).fileSys (visualOutputPathOf job0.inputPath)) :
    processJob clock b1 b2 storage job0 fileSys0 tick0 =
      failStage
        ("Perturbação visual falhou (código " ++ toString (runPythonScript b2).1 ++ ")")
        "Erro na perturbação visual"
        (runVisualStage clock b2 job0.inputPath
          (runAudioStage clock b1 job0.inputPath (initialState job0 fileSys0 tick0))) := by
  simp only [processJob]
  rw [if_neg h1, if_pos h2, if_pos h3]

theorem processJob_eq_upload2 (clock : Nat → Nat) (b1 b2 : StageBehavior)
    (storage : Except String String) (job0 : Job) (fileSys0 : List String) (tick0 : Nat)
    (h1 : ¬ ((runPythonScript b1).1 ≠ 0 ∨
      ¬ pathExists (runAudioStage clock b1 job0.inputPath
          (initialState job0 fileSys0 tick0)).fileSys (audioOutputPath job0.inputPath)))
    (h2 : job0.visualPerturb = true)
    (h3 : ¬ ((runPythonScript b2).1 ≠ 0 ∨
      ¬ pathExists (runVisualStage clock b2 job0.inputPath
          (runAudioStage clock b1 job0.inputPath
            (initialState job0 fileSys0 tick0))).fileSys (visualOutputPathOf job0.inputPath))) :
    processJob clock b1 b2 storage job0 fileSys0 tick0 =
      doUpload clock storage (visualOutputPathOf job0.inputPath)
        (runVisualStage clock b2 job0.inputPath
          (runAudioStage clock b1 job0.inputPath (initialState job0 fileSys0 tick0))) := by
  simp only [processJob]
  rw [if_neg h1, if_pos h2, if_neg h3]

/-! Range and chain lemmas for the terminal phases. -/

theorem foldl_applyEvent_range (c : Nat → Nat) (events : List ParsedEvent)
    (s : PipeState)
    (hev : ∀ e ∈ events, (!strTruthy e.error && strTruthy e.step) = true →
      ∀ p, e.percent = some p → 0 ≤ p ∧ p ≤ 100)
    (hj : 0 ≤ s.job.progress ∧ s.job.progress ≤ 100)
    (htr : ∀ j ∈ s.trace, 0 ≤ j.progress ∧ j.progress ≤ 100) :
    (0 ≤ (events.foldl (applyEvent c) s).job.progress ∧
      (events.foldl (applyEvent c) s).job.progress ≤ 100) ∧
    ∀ j ∈ (events.foldl (applyEvent c) s).trace,
      0 ≤ j.progress ∧ j.progress ≤ 100 := by
  induction events generalizing s with
  | nil => exact ⟨hj, htr⟩
  | cons e t ih =>
    rw [List.foldl_cons]
    have hj' : 0 ≤ (applyEvent c s e).job.progress ∧
        (applyEvent c s e).job.progress ≤ 100 := by
      rw [applyEvent_job, addStep_progress]
      split
      · next hrel =>
        cases hp : e.percent with
        | none => exact hj
        | some p => exact hev e (List.mem_cons_self e t) hrel p hp
      · exact hj
    have htr' : ∀ j ∈ (applyEvent c s e).trace, 0 ≤ j.progress ∧ j.progress ≤ 100 := by
      rw [applyEvent_trace]
      intro j hjm
      rcases List.mem_append.mp hjm with h | h
      · exact htr j h
      · simp only [List.mem_singleton] at h
        subst h
        exact hj'
    exact ih (applyEvent c s e) (fun e2 he2 => hev e2 (List.mem_cons_of_mem e he2)) hj' htr'

theorem failStage_range (g m : String) (s : PipeState)
    (hj : 0 ≤ s.job.progress ∧ s.job.progress ≤ 100)
    (htr : ∀ j ∈ s.trace, 0 ≤ j.progress ∧ j.progress ≤ 100) :
    ∀ j ∈ (failStage g m s).trace, 0 ≤ j.progress ∧ j.progress ≤ 100 := by
  intro j hjm
  rw [failStage_trace] at hjm
  rcases List.mem_append.mp hjm with h | h
  · exact htr j h
  · simp only [List.mem_singleton] at h
    subst h
    rw [failStage_progress]
    exact hj

theorem doUpload_range (c : Nat → Nat) (st : Except String String) (fop : String)
    (s : PipeState)
    (hj : 0 ≤ s.job.progress ∧ s.job.progress ≤ 100)
    (htr : ∀ j ∈ s.trace, 0 ≤ j.progress ∧ j.progress ≤ 100) :
    ∀ j ∈ (doUpload c st fop s).trace, 0 ≤ j.progress ∧ j.progress ≤ 100 := by
  unfold doUpload
  split
  · cases st with
    | ok url =>
      intro j hjm
      rcases List.mem_append.mp hjm with hjm | hjm
      · rcases List.mem_append.mp hjm with h | h
        · exact htr j h
        · simp only [List.mem_singleton] at h
          subst h
          exact (by decide : (0 : Int) ≤ 95 ∧ (95 : Int) ≤ 100)
      · simp only [List.mem_singleton] at hjm
        subst hjm
        exact (by decide : (0 : Int) ≤ 100 ∧ (100 : Int) ≤ 100)
    | error e =>
      intro j hjm
      rcases List.mem_append.mp hjm with hjm | hjm
      · rcases List.mem_append.mp hjm with h | h
        · exact htr j h
        · simp only [List.mem_singleton] at h
          subst h
          exact (by decide : (0 : Int) ≤ 95 ∧ (95 : Int) ≤ 100)
      · simp only [List.mem_singleton] at hjm
        subst hjm
        exact (by decide : (0 : Int) ≤ 95 ∧ (95 : Int) ≤ 100)
  · split
    · intro j hjm
      rcases List.mem_append.mp hjm with h | h
      · exact htr j h
      · simp only [List.mem_singleton] at h
        subst h
        exact hj
    · intro j hjm
      rcases List.mem_append.mp hjm with h | h
      · exact htr j h
      · simp only [List.mem_singleton] at h
        subst h
        exact hj

theorem failStage_chain (g m : String) (s : PipeState)
    (hlast : s.trace.getLast? = some s.job)
    (hchain : List.Chain' (fun a b => a ≤ b) (s.trace.map Job.progress)) :
    List.Chain' (fun a b => a ≤ b) ((failStage g m s).trace.map Job.progress) := by
  rw [failStage_trace]
  exact chain_trace_snap _ hchain hlast (le_of_eq (failStage_progress g m s).symm)

theorem doUpload_chain (c : Nat → Nat) (st : Except String String) (fop : String)
    (s : PipeState)
    (hlast : s.trace.getLast? = some s.job)
    (hchain : List.Chain' (fun a b => a ≤ b) (s.trace.map Job.progress))
    (h95 : s.job.progress ≤ 95) :
    List.Chain' (fun a b => a ≤ b) ((doUpload c st fop s).trace.map Job.progress) := by
  unfold doUpload
  split
  · cases st with
    | ok url =>
      exact chain_trace_snap _ (chain_trace_snap _ hchain hlast h95)
        (List.getLast?_concat _) (by decide : (95 : Int) ≤ 100)
    | error e =>
      exact chain_trace_snap _ (chain_trace_snap _ hchain hlast h95)
        (List.getLast?_concat _) (le_refl (95 : Int))
  · split
    · exact chain_trace_snap _ hchain hlast (le_refl s.job.progress)
    · exact chain_trace_snap _ hchain hlast (le_refl s.job.progress)

/-! Stage-level wrappers of the fold lemmas. -/

theorem runAudioStage_lastSnap (c : Nat → Nat) (b1 : StageBehavior) (ip : String)
    (s : PipeState) (h : s.trace.getLast? = some s.job) :
    (runAudioStage c b1 ip s).trace.getLast? = some (runAudioStage c b1 ip s).job := by
  rw [runAudioStage_trace, runAudioStage_job]
  exact foldl_applyEvent_lastSnap c _ s h

theorem runVisualStage_lastSnap (c : Nat → Nat) (b2 : StageBehavior) (ip : String)
    (s : PipeState) :
    (runVisualStage c b2 ip s).trace.getLast? = some (runVisualStage c b2 ip s).job := by
  rw [runVisualStage_trace, runVisualStage_job]
  refine foldl_applyEvent_lastSnap c _ _ ?_
  exact List.getLast?_concat _

theorem runAudioStage_range (c : Nat → Nat) (b1 : StageBehavior) (ip : String)
    (s : PipeState)
    (hev : ∀ e ∈ (runPythonScript b1).2, (!strTruthy e.error && strTruthy e.step) = true →
      ∀ p, e.percent = some p → 0 ≤ p ∧ p ≤ 100)
    (hj : 0 ≤ s.job.progress ∧ s.job.progress ≤ 100)
    (htr : ∀ j ∈ s.trace, 0 ≤ j.progress ∧ j.progress ≤ 100) :
    (0 ≤ (runAudioStage c b1 ip s).job.progress ∧
      (runAudioStage c b1 ip s).job.progress ≤ 100) ∧
    ∀ j ∈ (runAudioStage c b1 ip s).trace, 0 ≤ j.progress ∧ j.progress ≤ 100 := by
  constructor
  · rw [runAudioStage_job]
    exact (foldl_applyEvent_range c _ s hev hj htr).1
  · rw [runAudioStage_trace]
    exact (foldl_applyEvent_range c _ s hev hj htr).2

theorem runVisualStage_range (c : Nat → Nat) (b2 : StageBehavior) (ip : String)
    (s : PipeState)
    (hev : ∀ e ∈ (runPythonScript b2).2.map remapVisual,
      (!strTruthy e.error && strTruthy e.step) = true →
      ∀ p, e.percent = some p → 0 ≤ p ∧ p ≤ 100)
    (hj : 0 ≤ s.job.progress ∧ s.job.progress ≤ 100)
    (htr : ∀ j ∈ s.trace, 0 ≤ j.progress ∧ j.progress ≤ 100) :
    (0 ≤ (runVisualStage c b2 ip s).job.progress ∧
      (runVisualStage c b2 ip s).job.progress ≤ 100) ∧
    ∀ j ∈ (runVisualStage c b2 ip s).trace, 0 ≤ j.progress ∧ j.progress ≤ 100 := by
  have htr' : ∀ j ∈ (snap { s with
      job := { s.job with currentStep := "Aplicando camada visual adversarial..." }
      visualCalled := true }).trace, 0 ≤ j.progress ∧ j.progress ≤ 100 := by
    intro j hj2
    rcases List.mem_append.mp hj2 with h | h
    · exact htr j h
    · simp only [List.mem_singleton] at h
      subst h
      exact hj
  have key := foldl_applyEvent_range c ((runPythonScript b2).2.map remapVisual)
    (snap { s with
      job := { s.job with currentStep := "Aplicando camada visual adversarial..." }
      visualCalled := true }) hev hj htr'
  constructor
  · rw [runVisualStage_job]
    exact key.1
  · rw [runVisualStage_trace]
    exact key.2

theorem runAudioStage_chain (c : Nat → Nat) (b1 : StageBehavior) (ip : String)
    (s : PipeState)
    (hlast : s.trace.getLast? = some s.job)
    (hchain : List.Chain' (fun a b => a ≤ b) (s.trace.map Job.progress))
    (hev : List.Chain' (fun a b => a ≤ b)
      (s.job.progress :: stepPercents (runPythonScript b1).2)) :
    List.Chain' (fun a b => a ≤ b) ((runAudioStage c b1 ip s).trace.map Job.progress) ∧
    (runAudioStage c b1 ip s).job.progress =
      (stepPercents (runPythonScript b1).2).getLastD s.job.progress := by
  rw [runAudioStage_trace, runAudioStage_job]
  exact foldl_applyEvent_chain c _ s hlast hchain hev

theorem runVisualStage_chain (c : Nat → Nat) (b2 : StageBehavior) (ip : String)
    (s : PipeState)
    (hlast : s.trace.getLast? = some s.job)
    (hchain : List.Chain' (fun a b => a ≤ b) (s.trace.map Job.progress))
    (hev : List.Chain' (fun a b => a ≤ b)
      (s.job.progress :: stepPercents ((runPythonScript b2).2.map remapVisual))) :
    List.Chain' (fun a b => a ≤ b) ((runVisualStage c b2 ip s).trace.map Job.progress) ∧
    (runVisualStage c b2 ip s).job.progress =
      (stepPercents ((runPythonScript b2).2.map remapVisual)).getLastD s.job.progress := by
  rw [runVisualStage_trace, runVisualStage_job]
  refine foldl_applyEvent_chain c _ _ ?_ ?_ ?_
  · exact List.getLast?_concat _
  · exact chain_trace_snap _ hchain hlast (le_refl _)
  · exact hev

theorem runAudioStage_noCompletion (c : Nat → Nat) (b1 : StageBehavior) (ip : String)
    (s : PipeState) (hs : NoCompletionFields s.job) :
    NoCompletionFields (runAudioStage c b1 ip s).job ∧
    ∀ j ∈ (runAudioStage c b1 ip s).trace, j ∈ s.trace ∨ NoCompletionFields j := by
  constructor
  · rw [runAudioStage_job]
    exact (foldl_applyEvent_noCompletion c _ s hs).1
  · rw [runAudioStage_trace]
    exact (foldl_applyEvent_noCompletion c _ s hs).2

theorem runVisualStage_noCompletion (c : Nat → Nat) (b2 : StageBehavior) (ip : String)
    (s : PipeState) (hs : NoCompletionFields s.job) :
    NoCompletionFields (runVisualStage c b2 ip s).job ∧
    ∀ j ∈ (runVisualStage c b2 ip s).trace, j ∈ s.trace ∨ NoCompletionFields j := by
  have hbase : NoCompletionFields (snap { s with
      job := { s.job with currentStep := "Aplicando camada visual adversarial..." }
      visualCalled := true }).job := ⟨hs.1, hs.2.1, hs.2.2.1, hs.2.2.2⟩
  constructor
  · rw [runVisualStage_job]
    exact (foldl_applyEvent_noCompletion c _ _ hbase).1
  · rw [runVisualStage_trace]
    intro j hj
    rcases (foldl_applyEvent_noCompletion c _ _ hbase).2 j hj with hmem | hnc
    · rcases List.mem_append.mp hmem with h | h
      · exact Or.inl h
      · simp only [List.mem_singleton] at h
        subst h
        exact Or.inr hbase
    · exact Or.inr hnc

theorem runAudioStage_congr {b1 b1' : StageBehavior} (c : Nat → Nat) (ip : String)
    (s : PipeState)
    (hrun : runPythonScript b1 = runPythonScript b1')
    (heff : (!b1.spawnFails && b1.createsOutput) = (!b1'.spawnFails && b1'.createsOutput)) :
    runAudioStage c b1 ip s = runAudioStage c b1' ip s := by
  unfold runAudioStage
  rw [hrun, heff]

theorem processJob_congr_b1 {b1 b1' : StageBehavior} (clock : Nat → Nat)
    (b2 : StageBehavior) (storage : Except String String) (job0 : Job)
    (fileSys0 : List String) (tick0 : Nat)
    (hrun : runPythonScript b1 = runPythonScript b1')
    (heff : (!b1.spawnFails && b1.createsOutput) = (!b1'.spawnFails && b1'.createsOutput)) :
    processJob clock b1 b2 storage job0 fileSys0 tick0 =
      processJob clock b1' b2 storage job0 fileSys0 tick0 := by
  unfold processJob
  rw [hrun, runAudioStage_congr clock job0.inputPath _ hrun heff]

/-! Claim theorems. -/

/-- Claim C1: the scheduler is a single background worker that never runs
concurrently with itself — a `runWorker` entered while the running flag is
set returns immediately without touching anything; otherwise it drains the
FIFO queue sequentially (the processed ids form a sublist of the queue, so
jobs are handled in enqueue order, one at a time, each pipeline awaited
before the next dequeue in this sequential model), invokes the pipeline only
for ids whose job exists in the registry with status still `queued` at
dequeue time, processes every id that was enqueued with a `queued` job, and
ends with an empty queue and a cleared running flag. -/
theorem c1_scheduler_fifo (process : Job → Job) (s : Store)
    (hp : ∀ j, (process j).status ≠ JobStatus.queued) :
    (s.isWorkerRunning = true → runWorker process s = (s, [])) ∧
    List.Sublist (runWorker process s).2 s.jobQueue ∧
    (∀ id ∈ (runWorker process s).2,
      ∃ j, lookupJob s.jobs id = some j ∧ j.status = JobStatus.queued) ∧
    (s.isWorkerRunning = false →
      (runWorker process s).1.jobQueue = [] ∧
      (runWorker process s).1.isWorkerRunning = false ∧
      ∀ id ∈ s.jobQueue,
        (∃ j, lookupJob s.jobs id = some j ∧ j.status = JobStatus.queued) →
          id ∈ (runWorker process s).2) := by
  by_cases hrun : s.isWorkerRunning = true
  · have he : runWorker process s = (s, []) := by
      unfold runWorker
      rw [if_pos hrun]
    rw [he]
    refine ⟨fun _ => rfl, List.nil_sublist _, ?_, ?_⟩
    · intro id hid
      simp at hid
    · intro hfalse
      rw [hrun] at hfalse
      cases hfalse
  · unfold runWorker
    rw [if_neg hrun]
    refine ⟨fun h => absurd h hrun,
      workerLoop_sublist process s.jobQueue s.jobs,
      workerLoop_queued process hp s.jobQueue s.jobs s.jobs (fun k => Or.inl rfl),
      ?_⟩
    intro _
    exact ⟨rfl, rfl, workerLoop_complete process s.jobQueue s.jobs⟩

/-- Witness for C1: the real pipeline (in a fixed benign environment) as the
worker body never leaves a job `queued`, and draining a store holding one
queued job processes it in FIFO order. -/
theorem c1_scheduler_fifo_witness :
    (∀ j, (pipelineProcess j).status ≠ JobStatus.queued) ∧
    List.Sublist (runWorker pipelineProcess
      { jobs := [("a", sampleJob false)], isWorkerRunning := false,
        jobQueue := ["a"] }).2 ["a"] := by
  have hp : ∀ j, (pipelineProcess j).status ≠ JobStatus.queued := by
    intro j h
    have h2 : (processJob zeroClock {} {} (Except.ok "u") j [] 0).job.status =
        JobStatus.queued := h
    rcases processJob_status_terminal zeroClock {} {} (Except.ok "u") j [] 0 with
      h3 | h3 <;> rw [h3] at h2 <;> cases h2
  exact ⟨hp, (c1_scheduler_fifo pipelineProcess _ hp).2.1⟩

/-- Claim C4: a progress event of the optional visual stage carrying native
percent `p ∈ [0, 100]` is recorded with job-visible progress exactly
`50 + round(p * 0.45)` — as integers, `remapFormula p = 50 + (45*p + 50)/100`
(floor of `0.45p + 0.5`, which is `Math.round` of `0.45p`) — and the step
and message fields are carried over unchanged into the appended audit
record; in particular `40 ↦ 68`, `0 ↦ 50` and `100 ↦ 95`.  `processJob`
delivers every visual-stage event through `remapVisual` then `addStep`,
which is the composite proved here. -/
theorem c4_visual_remap (now : Nat) (e : ParsedEvent) (j : Job) (p : Int)
    (hst : strTruthy e.step = true) (herr : strTruthy e.error = false)
    (hp : e.percent = some p) (h0 : 0 ≤ p) (h100 : p ≤ 100) :
    (addStep now (remapVisual e) j).progress = 50 + (45 * p + 50) / 100 ∧
    (addStep now (remapVisual e) j).steps = j.steps ++
      [{ step := e.step.getD "", percent := 50 + (45 * p + 50) / 100,
         message := e.message.getD "", timestamp := now }] ∧
    (addStep now (remapVisual e) j).currentStep = e.message.getD j.currentStep ∧
    remapFormula 40 = 68 ∧ remapFormula 0 = 50 ∧ remapFormula 100 = 95 := by
  have hre : (remapVisual e).error = e.error := remapVisual_error e
  have hrs : (remapVisual e).step = e.step := remapVisual_step e
  have hrm : (remapVisual e).message = e.message := remapVisual_message e
  have hrp : (remapVisual e).percent = some (remapFormula p) := by
    rw [remapVisual_percent_of e hst, hp]
    rfl
  unfold addStep
  rw [if_neg (by rw [hre, herr]; exact Bool.false_ne_true)]
  rw [if_pos (by rw [hrs]; exact hst)]
  refine ⟨?_, ?_, ?_, by decide, by decide, by decide⟩
  · show (remapVisual e).percent.getD j.progress = 50 + (45 * p + 50) / 100
    rw [hrp]
    rfl
  · show j.steps ++ _ = j.steps ++ _
    rw [hrp, hrs, hrm]
    rfl
  · show (remapVisual e).message.getD j.currentStep = e.message.getD j.currentStep
    rw [hrm]

/-- Witness for C4: the remap of a concrete `percent: 40` event. -/
theorem c4_visual_remap_witness :
    strTruthy (some "apply") = true ∧ strTruthy (none : Option String) = false ∧
    (addStep 3 (remapVisual { step := some "apply", percent := some 40 })
      (sampleJob true)).progress = 68 :=
  ⟨by decide, by decide,
    by
      have h := (c4_visual_remap 3 { step := some "apply", percent := some 40 }
        (sampleJob true) 40 (by decide) (by decide) rfl (by decide) (by decide)).1
      rw [h]
      decide⟩

/-- Claim C8 (amended): `createJob` never fails — it unconditionally builds a
fresh `queued` job with progress `0`, stores it under `id` (silently
replacing any existing entry with the same id), appends the id to the FIFO
queue, leaves every other registry entry and the running flag unchanged,
and schedules the worker exactly when the running flag is clear. -/
theorem c8_create_replaces (s : Store) (id originalName inputPath : String)
    (vp : Bool) (now : Nat) :
    lookupJob (createJob s id originalName inputPath vp now).1.jobs id =
      some (createJob s id originalName inputPath vp now).2.1 ∧
    (createJob s id originalName inputPath vp now).2.1.status = JobStatus.queued ∧
    (createJob s id originalName inputPath vp now).2.1.progress = 0 ∧
    (createJob s id originalName inputPath vp now).1.jobQueue = s.jobQueue ++ [id] ∧
    (createJob s id originalName inputPath vp now).2.2 = !s.isWorkerRunning ∧
    (∀ k, k ≠ id →
      lookupJob (createJob s id originalName inputPath vp now).1.jobs k =
        lookupJob s.jobs k) ∧
    (createJob s id originalName inputPath vp now).1.isWorkerRunning =
      s.isWorkerRunning := by
  refine ⟨?_, rfl, rfl, rfl, rfl, ?_, rfl⟩
  · show lookupJob (mapSet s.jobs id _) id = _
    rw [lookupJob_mapSet, if_pos rfl]
    rfl
  · intro k hk
    show lookupJob (mapSet s.jobs id _) k = _
    rw [lookupJob_mapSet, if_neg hk]

/-- Counterexample to C8 as stated: creating a second job under the already
present id `"a"` does not fail; the existing record (originalName
`"one.mp4"`) is silently replaced by the new one (`"two.mp4"`), and the id
is enqueued a second time. -/
theorem c8_counterexample :
    (lookupJob c8store1.1.jobs "a").map Job.originalName = some "one.mp4" ∧
    (lookupJob c8store2.1.jobs "a").map Job.originalName = some "two.mp4" ∧
    c8store2.1.jobQueue = ["a", "a"] := by decide

/-- Claim C9: a failure to spawn the stage process resolves the stage runner
with the sentinel exit code `1` (non-zero, no events delivered), and the
orchestrator's entire observable outcome for such a job is literally the
same `processJob` state as for a stage that ran, exited `1` and produced no
output — same error policy, same input-file cleanup. -/
theorem c9_spawn_failure_sentinel (clock : Nat → Nat) (b1 b2 : StageBehavior)
    (storage : Except String String) (job0 : Job) (fileSys0 : List String)
    (tick0 : Nat) (hspawn : b1.spawnFails = true) :
    runPythonScript b1 = (1, []) ∧ (1 : Int) ≠ 0 ∧
    processJob clock b1 b2 storage job0 fileSys0 tick0 =
      processJob clock
        { spawnFails := false, events := [], exitCode := 1, createsOutput := false }
        b2 storage job0 fileSys0 tick0 := by
  have h1 : runPythonScript b1 = (1, []) := by
    unfold runPythonScript
    rw [if_pos hspawn]
  refine ⟨h1, by decide, ?_⟩
  refine processJob_congr_b1 clock b2 storage job0 fileSys0 tick0 ?_ ?_
  · rw [h1]
    rfl
  · rw [hspawn]
    rfl

/-- Witness for C9: a concrete spawn failure ends the job in `error` with the
generic message embedding the sentinel code `1`. -/
theorem c9_spawn_failure_sentinel_witness :
    ({ spawnFails := true, events := [], exitCode := 0,
       createsOutput := true } : StageBehavior).spawnFails = true ∧
    processJob zeroClock
        { spawnFails := true, events := [], exitCode := 0, createsOutput := true } {}
        (Except.ok "u") (sampleJob false) ["/t/a.mp4"] 0 =
      processJob zeroClock
        { spawnFails := false, events := [], exitCode := 1, createsOutput := false } {}
        (Except.ok "u") (sampleJob false) ["/t/a.mp4"] 0 :=
  ⟨rfl,
    (c9_spawn_failure_sentinel zeroClock
      { spawnFails := true, events := [], exitCode := 0, createsOutput := true } {}
      (Except.ok "u") (sampleJob false) ["/t/a.mp4"] 0 rfl).2.2⟩

/-- Claim C10: a decoded step event that omits its percent leaves the job's
`progress` unchanged while the appended audit record stores the default
`percent = 0`; likewise an omitted message leaves `currentStep` unchanged
while the record stores `""` — so the audit-trail entry and the job-visible
progress can disagree for such events. -/
theorem c10_step_defaults (now : Nat) (e : ParsedEvent) (j : Job)
    (hst : strTruthy e.step = true) (herr : strTruthy e.error = false) :
    (addStep now e j).steps = j.steps ++
      [{ step := e.step.getD "", percent := e.percent.getD 0,
         message := e.message.getD "", timestamp := now }] ∧
    (e.percent = none →
      (addStep now e j).progress = j.progress ∧ e.percent.getD 0 = 0) ∧
    (e.message = none →
      (addStep now e j).currentStep = j.currentStep ∧ e.message.getD "" = "") := by
  unfold addStep
  rw [if_neg (by rw [herr]; exact Bool.false_ne_true), if_pos hst]
  refine ⟨rfl, ?_, ?_⟩
  · intro hpn
    rw [hpn]
    exact ⟨rfl, rfl⟩
  · intro hmn
    rw [hmn]
    exact ⟨rfl, rfl⟩

/-- Witness for C10: an event `{step: "x"}` with no percent on a job whose
progress is 42 keeps progress 42 but records percent 0 — they disagree. -/
theorem c10_step_defaults_witness :
    strTruthy (some "x") = true ∧ strTruthy (none : Option String) = false ∧
    (addStep 7 { step := some "x" }
      { sampleJob false with progress := 42 }).progress = 42 ∧
    (addStep 7 { step := some "x" }
      { sampleJob false with progress := 42 }).steps =
      [{ step := "x", percent := 0, message := "", timestamp := 7 }] := by
  refine ⟨by decide, by decide, ?_, ?_⟩
  · have h := ((c10_step_defaults 7 { step := some "x" }
      { sampleJob false with progress := 42 } (by decide) (by decide)).2.1 rfl).1
    rw [h]
  · have h := (c10_step_defaults 7 { step := some "x" }
      { sampleJob false with progress := 42 } (by decide) (by decide)).1
    rw [h]
    decide

/-- Claim C5: if the mandatory stage exits with a non-zero code or its
declared output artifact is absent from disk, the job terminates with
`status = error`; unless an error was already reported via a protocol event,
the message is the generic one embedding the exit code; the input artifact
is deleted; and neither the optional visual stage nor the storage put is
ever invoked for that job. -/
theorem c5_audio_failure (clock : Nat → Nat) (b1 b2 : StageBehavior)
    (storage : Except String String) (job0 : Job) (fileSys0 : List String)
    (tick0 : Nat)
    (hfail : (runPythonScript b1).1 ≠ 0 ∨
      ¬ pathExists (fsAfterAudio b1 job0.inputPath fileSys0)
        (audioOutputPath job0.inputPath)) :
    (processJob clock b1 b2 storage job0 fileSys0 tick0).job.status = JobStatus.error ∧
    (lastError (runPythonScript b1).2 = none →
      ∃ pre suf, (processJob clock b1 b2 storage job0 fileSys0 tick0).job.error =
        some (pre ++ toString (runPythonScript b1).1 ++ suf)) ∧
    pathExists (processJob clock b1 b2 storage job0 fileSys0 tick0).fileSys
      job0.inputPath = false ∧
    (processJob clock b1 b2 storage job0 fileSys0 tick0).visualCalled = false ∧
    (processJob clock b1 b2 storage job0 fileSys0 tick0).putCalled = false := by
  have hfail2 : (runPythonScript b1).1 ≠ 0 ∨
      ¬ pathExists (runAudioStage clock b1 job0.inputPath
          (initialState job0 fileSys0 tick0)).fileSys (audioOutputPath job0.inputPath) := by
    rcases hfail with h | h
    · exact Or.inl h
    · right
      rw [runAudioStage_fileSys, initialState_fileSys]
      exact h
  rw [processJob_eq_fail1 clock b1 b2 storage job0 fileSys0 tick0 hfail2]
  refine ⟨failStage_status _ _ _, ?_, ?_, ?_, ?_⟩
  · intro hnone
    have hstat : (runAudioStage clock b1 job0.inputPath
        (initialState job0 fileSys0 tick0)).job.status = JobStatus.processing := by
      rw [runAudioStage_job,
        ((foldl_applyEvent_error clock (runPythonScript b1).2
          (initialState job0 fileSys0 tick0)).1 hnone).2]
      rfl
    refine ⟨"Processamento de áudio falhou (código ", ")", ?_⟩
    rw [failStage_error_of_ne _ _ _ (by rw [hstat]; intro h; cases h)]
  · rw [failStage_fileSys]
    have hip : (runAudioStage clock b1 job0.inputPath
        (initialState job0 fileSys0 tick0)).job.inputPath = job0.inputPath := by
      rw [runAudioStage_job, foldl_applyEvent_inputPath]
      rfl
    rw [hip]
    exact removePath_not_exists _ _
  · rw [failStage_visualCalled, runAudioStage_visualCalled]
    rfl
  · rw [failStage_putCalled, runAudioStage_putCalled]
    rfl

/-- Witness for C5: the mandatory stage exits with code 2 and produces no
output file; the job ends in `error` and the storage put is never called. -/
theorem c5_audio_failure_witness :
    ((runPythonScript { exitCode := 2 }).1 ≠ 0 ∨
      ¬ pathExists (fsAfterAudio { exitCode := 2 } "/t/a.mp4" ["/t/a.mp4"])
        (audioOutputPath "/t/a.mp4")) ∧
    (processJob zeroClock { exitCode := 2 } {} (Except.ok "u")
      (sampleJob false) ["/t/a.mp4"] 0).job.status = JobStatus.error ∧
    (processJob zeroClock { exitCode := 2 } {} (Except.ok "u")
      (sampleJob false) ["/t/a.mp4"] 0).putCalled = false := by
  have hf : (runPythonScript { exitCode := 2 }).1 ≠ 0 ∨
      ¬ pathExists (fsAfterAudio { exitCode := 2 } "/t/a.mp4" ["/t/a.mp4"])
        (audioOutputPath "/t/a.mp4") := by
    left
    decide
  refine ⟨hf, ?_, ?_⟩
  · exact (c5_audio_failure zeroClock { exitCode := 2 } {} (Except.ok "u")
      (sampleJob false) ["/t/a.mp4"] 0 hf).1
  · exact (c5_audio_failure zeroClock { exitCode := 2 } {} (Except.ok "u")
      (sampleJob false) ["/t/a.mp4"] 0 hf).2.2.2.2

/-- Claim C3 (amended): on the mandatory stage's failure path the generic
exit-code message never overwrites a protocol-reported error: if any error
event was reported, the job ends in `error` carrying the message of the
last such event (so among protocol errors the last, not the first, wins);
only when no protocol error was reported is the generic exit-code message
used.  (As stated the claim is false: a later protocol error event
overwrites an earlier message, and after a protocol error with exit code 0
and output present a successful storage put downgrades the status back to
`completed` — see the counterexample.) -/
theorem c3_error_latch (clock : Nat → Nat) (b1 b2 : StageBehavior)
    (storage : Except String String) (job0 : Job) (fileSys0 : List String)
    (tick0 : Nat)
    (hfail : (runPythonScript b1).1 ≠ 0 ∨
      ¬ pathExists (fsAfterAudio b1 job0.inputPath fileSys0)
        (audioOutputPath job0.inputPath)) :
    (∀ m, lastError (runPythonScript b1).2 = some m →
      (processJob clock b1 b2 storage job0 fileSys0 tick0).job.status = JobStatus.error ∧
      (processJob clock b1 b2 storage job0 fileSys0 tick0).job.error = some m) ∧
    (lastError (runPythonScript b1).2 = none →
      (processJob clock b1 b2 storage job0 fileSys0 tick0).job.error =
        some ("Processamento de áudio falhou (código " ++
          toString (runPythonScript b1).1 ++ ")")) := by
  have hfail2 : (runPythonScript b1).1 ≠ 0 ∨
      ¬ pathExists (runAudioStage clock b1 job0.inputPath
          (initialState job0 fileSys0 tick0)).fileSys (audioOutputPath job0.inputPath) := by
    rcases hfail with h | h
    · exact Or.inl h
    · right
      rw [runAudioStage_fileSys, initialState_fileSys]
      exact h
  rw [processJob_eq_fail1 clock b1 b2 storage job0 fileSys0 tick0 hfail2]
  constructor
  · intro m hm
    have hkey := (foldl_applyEvent_error clock (runPythonScript b1).2
      (initialState job0 fileSys0 tick0)).2 m hm
    have hstat : (runAudioStage clock b1 job0.inputPath
        (initialState job0 fileSys0 tick0)).job.status = JobStatus.error := by
      rw [runAudioStage_job]
      exact hkey.2
    refine ⟨failStage_status _ _ _, ?_⟩
    rw [failStage_error_of_eq _ _ _ hstat, runAudioStage_job]
    exact hkey.1
  · intro hnone
    have hstat : (runAudioStage clock b1 job0.inputPath
        (initialState job0 fileSys0 tick0)).job.status = JobStatus.processing := by
      rw [runAudioStage_job,
        ((foldl_applyEvent_error clock (runPythonScript b1).2
          (initialState job0 fileSys0 tick0)).1 hnone).2]
      rfl
    rw [failStage_error_of_ne _ _ _ (by rw [hstat]; intro h; cases h)]

/-- Witness for C3 (amended): the stage reports two protocol errors then
exits 2; the job keeps the last protocol message, not the generic one. -/
theorem c3_error_latch_witness :
    ((runPythonScript twoErrorsBehavior).1 ≠ 0 ∨
      ¬ pathExists (fsAfterAudio twoErrorsBehavior "/t/a.mp4" ["/t/a.mp4"])
        (audioOutputPath "/t/a.mp4")) ∧
    lastError (runPythonScript twoErrorsBehavior).2 = some "second" ∧
    (processJob zeroClock twoErrorsBehavior {} (Except.ok "u")
      (sampleJob false) ["/t/a.mp4"] 0).job.error = some "second" := by
  have hf : (runPythonScript twoErrorsBehavior).1 ≠ 0 ∨
      ¬ pathExists (fsAfterAudio twoErrorsBehavior "/t/a.mp4" ["/t/a.mp4"])
        (audioOutputPath "/t/a.mp4") := by
    left
    decide
  refine ⟨hf, by decide, ?_⟩
  exact ((c3_error_latch zeroClock twoErrorsBehavior {} (Except.ok "u")
    (sampleJob false) ["/t/a.mp4"] 0 hf).1 "second" (by decide)).2

/-- Counterexample to C3 as stated: the mandatory stage reports a protocol
error event (`"boom"`), then exits 0 with its output artifact present, and
the storage put succeeds; the final upload block unconditionally sets
`status = completed`, downgrading the `error` status set mid-stream — the
observable statuses read processing, error, error, completed, and the job
finishes `completed` while still carrying the error message. -/
theorem c3_counterexample :
    c3run.trace.map Job.status =
      [JobStatus.processing, JobStatus.error, JobStatus.error, JobStatus.completed] ∧
    c3run.job.status = JobStatus.completed ∧
    c3run.job.error = some "boom" := by decide

/-- Claim C2 (amended): the invariant `0 ≤ progress ≤ 100` holds at every
observable instant provided every decoded progress event of the mandatory
stage carries an in-range percent and every visual-stage event's native
percent (default 0) is in range — as the stage-program contract declares.
(As stated — for arbitrary out-of-range events — the claim is false:
`addStep` copies the event percent verbatim, see the counterexample.) -/
theorem c2_progress_range (clock : Nat → Nat) (b1 b2 : StageBehavior)
    (storage : Except String String) (job0 : Job) (fileSys0 : List String)
    (tick0 : Nat)
    (h0 : 0 ≤ job0.progress ∧ job0.progress ≤ 100)
    (h1 : ∀ e ∈ (runPythonScript b1).2,
      (!strTruthy e.error && strTruthy e.step) = true →
      ∀ p, e.percent = some p → 0 ≤ p ∧ p ≤ 100)
    (h2 : ∀ e ∈ (runPythonScript b2).2,
      (!strTruthy e.error && strTruthy e.step) = true →
      0 ≤ e.percent.getD 0 ∧ e.percent.getD 0 ≤ 100) :
    ∀ j ∈ (processJob clock b1 b2 storage job0 fileSys0 tick0).trace,
      0 ≤ j.progress ∧ j.progress ≤ 100 := by
  have htr0 : ∀ j ∈ (initialState job0 fileSys0 tick0).trace,
      0 ≤ j.progress ∧ j.progress ≤ 100 := by
    intro j hj
    rw [initialState_trace] at hj
    simp only [List.mem_singleton] at hj
    subst hj
    exact h0
  have hA := runAudioStage_range clock b1 job0.inputPath
    (initialState job0 fileSys0 tick0) h1 h0 htr0
  by_cases hc1 : (runPythonScript b1).1 ≠ 0 ∨
      ¬ pathExists (runAudioStage clock b1 job0.inputPath
        (initialState job0 fileSys0 tick0)).fileSys (audioOutputPath job0.inputPath)
  · rw [processJob_eq_fail1 clock b1 b2 storage job0 fileSys0 tick0 hc1]
    exact failStage_range _ _ _ hA.1 hA.2
  · cases hvp : job0.visualPerturb with
    | false =>
      rw [processJob_eq_upload1 clock b1 b2 storage job0 fileSys0 tick0 hc1 hvp]
      exact doUpload_range clock storage _ _ hA.1 hA.2
    | true =>
      have h2m : ∀ e ∈ (runPythonScript b2).2.map remapVisual,
          (!strTruthy e.error && strTruthy e.step) = true →
          ∀ p, e.percent = some p → 0 ≤ p ∧ p ≤ 100 := by
        intro e2 he2 hrel p hp
        rcases List.mem_map.mp he2 with ⟨e, he, rfl⟩
        have hrel0 : (!strTruthy e.error && strTruthy e.step) = true := by
          rwa [remapVisual_error, remapVisual_step] at hrel
        have hst : strTruthy e.step = true :=
          (by simpa using hrel0 :
            (!strTruthy e.error) = true ∧ strTruthy e.step = true).2
        rw [remapVisual_percent_of e hst] at hp
        cases hp
        have hb := remapFormula_bounds (h2 e he hrel0).1 (h2 e he hrel0).2
        obtain ⟨hb1, hb2⟩ := hb
        exact ⟨by omega, by omega⟩
      have hV := runVisualStage_range clock b2 job0.inputPath
        (runAudioStage clock b1 job0.inputPath (initialState job0 fileSys0 tick0))
        h2m hA.1 hA.2
      by_cases hc2 : (runPythonScript b2).1 ≠ 0 ∨
          ¬ pathExists (runVisualStage clock b2 job0.inputPath
            (runAudioStage clock b1 job0.inputPath
              (initialState job0 fileSys0 tick0))).fileSys
            (visualOutputPathOf job0.inputPath)
      · rw [processJob_eq_fail2 clock b1 b2 storage job0 fileSys0 tick0 hc1 hvp hc2]
        exact failStage_range _ _ _ hV.1 hV.2
      · rw [processJob_eq_upload2 clock b1 b2 storage job0 fileSys0 tick0 hc1 hvp hc2]
        exact doUpload_range clock storage _ _ hV.1 hV.2

/-- Witness for C2 (amended): a single-stage run whose one step event carries
percent 50 keeps every observed progress within `[0, 100]`. -/
theorem c2_progress_range_witness :
    (0 ≤ (sampleJob false).progress ∧ (sampleJob false).progress ≤ 100) ∧
    ∀ j ∈ (processJob zeroClock oneStepBehavior {} (Except.ok "u")
      (sampleJob false) ["/t/a.mp4"] 0).trace, 0 ≤ j.progress ∧ j.progress ≤ 100 := by
  refine ⟨by decide, ?_⟩
  refine c2_progress_range zeroClock oneStepBehavior {} (Except.ok "u")
    (sampleJob false) ["/t/a.mp4"] 0 (by decide) ?_ ?_
  · intro e he hrel p hp
    have he2 : e = { step := some "x", percent := some 50 } := by
      simpa [runPythonScript, oneStepBehavior] using he
    subst he2
    simp only [Option.some_inj] at hp
    omega
  · intro e he
    simp [runPythonScript] at he

/-- Counterexample to C2 as stated: a decoded stage event carrying the
out-of-range percent 150 is copied verbatim into the job's progress, which
is then observable at 150 > 100. -/
theorem c2_counterexample :
    c2run.trace.map Job.progress = [0, 150, 150] ∧
    ¬ (∀ j ∈ c2run.trace, 0 ≤ j.progress ∧ j.progress ≤ 100) := by decide

/-- Claim C6 (amended): starting from a job with no completion fields set,
at every observable instant `completedAt`, `expiresAt` and `downloadUrl`
are all unset unless the status is `completed`; they are set exactly once,
atomically with the transition to `completed`, which is the final state of
the run; and `expiresAt` equals the clock sample taken immediately after
`completedAt`'s plus exactly 24 hours (`completedAt = clock t`,
`expiresAt = clock (t+1) + 24*60*60*1000` for consecutive `Date.now()`
calls).  (As stated — `expiresAt = completedAt + 24h` — the claim is false
whenever the millisecond clock advances between the two calls, see the
counterexample.) -/
theorem c6_completion_fields (clock : Nat → Nat) (b1 b2 : StageBehavior)
    (storage : Except String String) (job0 : Job) (fileSys0 : List String)
    (tick0 : Nat)
    (hc : job0.completedAt = none) (he : job0.expiresAt = none)
    (hd : job0.downloadUrl = none) :
    (∀ j ∈ (processJob clock b1 b2 storage job0 fileSys0 tick0).trace,
      NoCompletionFields j ∨
        (j.status = JobStatus.completed ∧
          j = (processJob clock b1 b2 storage job0 fileSys0 tick0).job)) ∧
    ((processJob clock b1 b2 storage job0 fileSys0 tick0).job.status =
        JobStatus.completed →
      ∃ t, (processJob clock b1 b2 storage job0 fileSys0 tick0).job.completedAt =
          some (clock t) ∧
        (processJob clock b1 b2 storage job0 fileSys0 tick0).job.expiresAt =
          some (clock (t + 1) + 24 * 60 * 60 * 1000) ∧
        (processJob clock b1 b2 storage job0 fileSys0 tick0).job.downloadUrl ≠
          none) := by
  have hs0 : NoCompletionFields (initialState job0 fileSys0 tick0).job :=
    ⟨hc, he, hd, by intro h; cases h⟩
  have htr0 : ∀ j ∈ (initialState job0 fileSys0 tick0).trace,
      NoCompletionFields j := by
    intro j hj
    rw [initialState_trace] at hj
    simp only [List.mem_singleton] at hj
    subst hj
    exact hs0
  have hA := runAudioStage_noCompletion clock b1 job0.inputPath
    (initialState job0 fileSys0 tick0) hs0
  have hAtr : ∀ j ∈ (runAudioStage clock b1 job0.inputPath
      (initialState job0 fileSys0 tick0)).trace, NoCompletionFields j := by
    intro j hj
    rcases hA.2 j hj with h | h
    · exact htr0 j h
    · exact h
  by_cases hc1 : (runPythonScript b1).1 ≠ 0 ∨
      ¬ pathExists (runAudioStage clock b1 job0.inputPath
        (initialState job0 fileSys0 tick0)).fileSys (audioOutputPath job0.inputPath)
  · rw [processJob_eq_fail1 clock b1 b2 storage job0 fileSys0 tick0 hc1]
    constructor
    · intro j hj
      left
      rcases failStage_trace_noCompletion _ _ _ hA.1 j hj with h | h
      · exact hAtr j h
      · exact h
    · intro hcomp
      rw [failStage_status] at hcomp
      cases hcomp
  · cases hvp : job0.visualPerturb with
    | false =>
      rw [processJob_eq_upload1 clock b1 b2 storage job0 fileSys0 tick0 hc1 hvp]
      have hD := doUpload_noCompletion clock storage (audioOutputPath job0.inputPath)
        (runAudioStage clock b1 job0.inputPath (initialState job0 fileSys0 tick0)) hA.1
      constructor
      · intro j hj
        rcases hD.1 j hj with h | h | h
        · exact Or.inl (hAtr j h)
        · exact Or.inl h
        · exact Or.inr h
      · exact hD.2
    | true =>
      have hV := runVisualStage_noCompletion clock b2 job0.inputPath
        (runAudioStage clock b1 job0.inputPath (initialState job0 fileSys0 tick0)) hA.1
      have hVtr : ∀ j ∈ (runVisualStage clock b2 job0.inputPath
          (runAudioStage clock b1 job0.inputPath
            (initialState job0 fileSys0 tick0))).trace, NoCompletionFields j := by
        intro j hj
        rcases hV.2 j hj with h | h
        · exact hAtr j h
        · exact h
      by_cases hc2 : (runPythonScript b2).1 ≠ 0 ∨
          ¬ pathExists (runVisualStage clock b2 job0.inputPath
            (runAudioStage clock b1 job0.inputPath
              (initialState job0 fileSys0 tick0))).fileSys
            (visualOutputPathOf job0.inputPath)
      · rw [processJob_eq_fail2 clock b1 b2 storage job0 fileSys0 tick0 hc1 hvp hc2]
        constructor
        · intro j hj
          left
          rcases failStage_trace_noCompletion _ _ _ hV.1 j hj with h | h
          · exact hVtr j h
          · exact h
        · intro hcomp
          rw [failStage_status] at hcomp
          cases hcomp
      · rw [processJob_eq_upload2 clock b1 b2 storage job0 fileSys0 tick0 hc1 hvp hc2]
        have hD := doUpload_noCompletion clock storage
          (visualOutputPathOf job0.inputPath)
          (runVisualStage clock b2 job0.inputPath
            (runAudioStage clock b1 job0.inputPath
              (initialState job0 fileSys0 tick0))) hV.1
        constructor
        · intro j hj
          rcases hD.1 j hj with h | h | h
          · exact Or.inl (hVtr j h)
          · exact Or.inl h
          · exact Or.inr h
        · exact hD.2

/-- Witness for C6 (amended): the clean single-stage success under the
per-call ticking clock; the completion fields hold two consecutive clock
samples 24 hours apart in the amended sense. -/
theorem c6_completion_fields_witness :
    ((sampleJob false).completedAt = none ∧ (sampleJob false).expiresAt = none ∧
      (sampleJob false).downloadUrl = none) ∧
    ∃ t, c6run.job.completedAt = some (idClock t) ∧
      c6run.job.expiresAt = some (idClock (t + 1) + 24 * 60 * 60 * 1000) ∧
      c6run.job.downloadUrl ≠ none := by
  refine ⟨⟨rfl, rfl, rfl⟩, ?_⟩
  exact (c6_completion_fields idClock { createsOutput := true } {} (Except.ok "u")
    (sampleJob false) ["/t/a.mp4"] 0 rfl rfl rfl).2 (by decide)

/-- Counterexample to C6 as stated: under a clock that advances one
millisecond per `Date.now()` call, a completed job has
`completedAt = 0` but `expiresAt = 86400001 ≠ completedAt + 24h`, because
the source samples `Date.now()` twice. -/
theorem c6_counterexample :
    c6run.job.status = JobStatus.completed ∧
    c6run.job.completedAt = some 0 ∧
    c6run.job.expiresAt = some 86400001 ∧
    c6run.job.expiresAt ≠ c6run.job.completedAt.map (fun t => t + 24 * 60 * 60 * 1000) := by
  decide

/-- Claim C7 (amended): the core does not rescale mandatory-stage events, so
job progress is monotonically non-decreasing exactly under the stage
contract: the percents of the mandatory stage's delivered progress events
form a non-decreasing chain starting from the job's initial progress, each
in `[0, 50]` when the optional stage follows (resp. `[0, 95]` when it is the
sole stage), and the visual stage's native percents (default 0) form a
non-decreasing chain in `[0, 100]`; then the remap into `[50, 95]`, the
upload step at 95 and completion at 100 never decrease the observed
progress.  (As stated the claim is false: the mandatory stage's events are
delivered 1:1 even when a second stage follows, so a mandatory percent
above 50 followed by an early remapped visual event decreases the
job-visible progress — see the counterexample.) -/
theorem c7_progress_monotone (clock : Nat → Nat) (b1 b2 : StageBehavior)
    (storage : Except String String) (job0 : Job) (fileSys0 : List String)
    (tick0 : Nat)
    (hev1 : List.Chain' (fun a b => a ≤ b)
      (job0.progress :: stepPercents (runPythonScript b1).2))
    (hb1 : ∀ p ∈ job0.progress :: stepPercents (runPythonScript b1).2,
      0 ≤ p ∧ p ≤ (if job0.visualPerturb then 50 else 95))
    (hev2 : List.Chain' (fun a b => a ≤ b)
      (nativeStepPercents (runPythonScript b2).2))
    (hb2 : ∀ p ∈ nativeStepPercents (runPythonScript b2).2, 0 ≤ p ∧ p ≤ 100) :
    List.Chain' (fun a b => a ≤ b)
      ((processJob clock b1 b2 storage job0 fileSys0 tick0).trace.map Job.progress) := by
  have hlast0 : (initialState job0 fileSys0 tick0).trace.getLast? =
      some (initialState job0 fileSys0 tick0).job := by
    rw [initialState_trace]
    rfl
  have hchain0 : List.Chain' (fun a b => a ≤ b)
      ((initialState job0 fileSys0 tick0).trace.map Job.progress) := by
    rw [initialState_trace]
    exact List.chain'_singleton _
  have hA := runAudioStage_chain clock b1 job0.inputPath
    (initialState job0 fileSys0 tick0) hlast0 hchain0 hev1
  have hlastA := runAudioStage_lastSnap clock b1 job0.inputPath
    (initialState job0 fileSys0 tick0) hlast0
  have hmemA : (runAudioStage clock b1 job0.inputPath
      (initialState job0 fileSys0 tick0)).job.progress ∈
      job0.progress :: stepPercents (runPythonScript b1).2 := by
    rw [hA.2]
    exact List.getLastD_mem_cons _ _
  have hboundA := hb1 _ hmemA
  by_cases hc1 : (runPythonScript b1).1 ≠ 0 ∨
      ¬ pathExists (runAudioStage clock b1 job0.inputPath
        (initialState job0 fileSys0 tick0)).fileSys (audioOutputPath job0.inputPath)
  · rw [processJob_eq_fail1 clock b1 b2 storage job0 fileSys0 tick0 hc1]
    exact failStage_chain _ _ _ hlastA hA.1
  · cases hvp : job0.visualPerturb with
    | false =>
      rw [processJob_eq_upload1 clock b1 b2 storage job0 fileSys0 tick0 hc1 hvp]
      refine doUpload_chain clock storage _ _ hlastA hA.1 ?_
      have hb := hboundA.2
      rw [hvp] at hb
      simpa using hb
    | true =>
      have hbA50 : (runAudioStage clock b1 job0.inputPath
          (initialState job0 fileSys0 tick0)).job.progress ≤ 50 := by
        have hb := hboundA.2
        rw [hvp] at hb
        simpa using hb
      have hevM : List.Chain' (fun a b => a ≤ b)
          ((runAudioStage clock b1 job0.inputPath
            (initialState job0 fileSys0 tick0)).job.progress ::
            stepPercents ((runPythonScript b2).2.map remapVisual)) := by
        rw [stepPercents_map_remapVisual]
        cases hn : nativeStepPercents (runPythonScript b2).2 with
        | nil => exact List.chain'_singleton _
        | cons n0 rest =>
          rw [List.map_cons]
          refine List.chain'_cons.mpr ⟨?_, ?_⟩
          · have hn0 : n0 ∈ nativeStepPercents (runPythonScript b2).2 := by
              rw [hn]
              exact List.mem_cons_self _ _
            have h50 := (remapFormula_bounds (hb2 n0 hn0).1 (hb2 n0 hn0).2).1
            exact le_trans hbA50 h50
          · rw [← List.map_cons, ← hn]
            exact (List.chain'_map remapFormula).mpr
              (hev2.imp (fun a b hab => remapFormula_mono hab))
      have hV := runVisualStage_chain clock b2 job0.inputPath
        (runAudioStage clock b1 job0.inputPath (initialState job0 fileSys0 tick0))
        hlastA hA.1 hevM
      have hlastV := runVisualStage_lastSnap clock b2 job0.inputPath
        (runAudioStage clock b1 job0.inputPath (initialState job0 fileSys0 tick0))
      by_cases hc2 : (runPythonScript b2).1 ≠ 0 ∨
          ¬ pathExists (runVisualStage clock b2 job0.inputPath
            (runAudioStage clock b1 job0.inputPath
              (initialState job0 fileSys0 tick0))).fileSys
            (visualOutputPathOf job0.inputPath)
      · rw [processJob_eq_fail2 clock b1 b2 storage job0 fileSys0 tick0 hc1 hvp hc2]
        exact failStage_chain _ _ _ hlastV hV.1
      · rw [processJob_eq_upload2 clock b1 b2 storage job0 fileSys0 tick0 hc1 hvp hc2]
        refine doUpload_chain clock storage _ _ hlastV hV.1 ?_
        rw [hV.2, stepPercents_map_remapVisual]
        have hmem := List.getLastD_mem_cons
          ((nativeStepPercents (runPythonScript b2).2).map remapFormula)
          (runAudioStage clock b1 job0.inputPath
            (initialState job0 fileSys0 tick0)).job.progress
        rcases List.mem_cons.mp hmem with hcase | hcase
        · rw [hcase]
          omega
        · rcases List.mem_map.mp hcase with ⟨n, hnmem, hneq⟩
          have h95 := (remapFormula_bounds (hb2 n hnmem).1 (hb2 n hnmem).2).2
          rw [← hneq]
          exact h95

/-- Witness for C7 (amended): a two-stage run whose mandatory stage reaches
percent 40 (≤ 50) and whose visual stage emits native percent 40 yields a
monotone progress trace. -/
theorem c7_progress_monotone_witness :
    List.Chain' (fun a b => a ≤ b)
      ((sampleJob true).progress :: stepPercents (runPythonScript fortyBehavior).2) ∧
    List.Chain' (fun a b => a ≤ b)
      ((processJob zeroClock fortyBehavior fortyBehavior (Except.ok "u")
        (sampleJob true) ["/t/a.mp4"] 0).trace.map Job.progress) := by
  have hl1 : (sampleJob true).progress :: stepPercents (runPythonScript fortyBehavior).2
      = [0, 40] := by decide
  have hc1 : List.Chain' (fun a b => a ≤ b)
      ((sampleJob true).progress :: stepPercents (runPythonScript fortyBehavior).2) := by
    rw [hl1]
    exact List.chain'_cons.mpr ⟨by decide, List.chain'_singleton _⟩
  have hl2 : nativeStepPercents (runPythonScript fortyBehavior).2 = [40] := by decide
  have hc2 : List.Chain' (fun a b => a ≤ b)
      (nativeStepPercents (runPythonScript fortyBehavior).2) := by
    rw [hl2]
    exact List.chain'_singleton _
  refine ⟨hc1, ?_⟩
  exact c7_progress_monotone zeroClock fortyBehavior fortyBehavior (Except.ok "u")
    (sampleJob true) ["/t/a.mp4"] 0 hc1 (by decide) hc2 (by decide)

/-- Counterexample to C7 as stated: a two-stage job whose mandatory stage
emits percent 100 (delivered 1:1, not rescaled) and whose visual stage then
starts at native percent 0 (remapped to 50) shows the job-visible progress
sequence 0, 100, 100, 50, 95, 100 — a decrease from 100 to 50. -/
theorem c7_counterexample :
    c7run.trace.map Job.progress = [0, 100, 100, 50, 95, 100] ∧
    ¬ List.Chain' (fun a b => a ≤ b) (c7run.trace.map Job.progress) := by
  constructor
  · decide
  · intro h
    rw [(by decide : c7run.trace.map Job.progress = [0, 100, 100, 50, 95, 100])] at h
    have := (List.chain'_cons.mp (List.chain'_cons.mp (List.chain'_cons.mp h).2).2).1
    omega

end VVR

